import Mathlib

/-!
Verification of the inode core of the px-graph layered filesystem
(`src/lcfs/inode.c`) against its natural-language specification.

The C code is shallowly embedded: structs become Lean structures, pointer
graphs become index-addressed heaps, machine counters are `Nat` reduced
mod `2 ^ 64` where the C uses `uint64_t` atomics, fatal assertions become
`Option`-valued results (`none` = assertion failure / abort), and calls
into external modules (block allocator, page cache, directory / bmap /
xattr modules) are recorded as events or modelled from the specification
where their bodies are outside the repository slice.
-/

set_option autoImplicit false
set_option linter.unusedVariables false
set_option maxRecDepth 10000

namespace PxGraph

/-- Wrap-around modulus of the 64-bit machine counters
(`__sync_add_and_fetch` / `__sync_sub_and_fetch` on `uint64_t`). -/
def U64 : Nat := 2 ^ 64

/-- The invalid block sentinel `LC_INVALID_BLOCK` (`(uint64_t)-1`); the
defining header is not part of the repository slice, the value is the
usual all-ones word the spec calls the invalid sentinel. -/
def LC_INVALID_BLOCK : Nat := 2 ^ 64 - 1

/-- Modelled from the spec: `LC_ICACHE_SIZE`, the fixed power-of-two
bucket count of the inode hash cache (spec: typically 512-4096); the
defining header is not in the repository slice. -/
def LC_ICACHE_SIZE : Nat := 512

/-- Modelled from the spec: `LC_BLOCK_SIZE`, the device block size; the
defining header is not in the repository slice. -/
def LC_BLOCK_SIZE : Nat := 4096

/-- Modelled from the spec: `LC_IBLOCK_MAX`, the fixed capacity of child
block addresses in one inode-block record; the defining header is not in
the repository slice. -/
def LC_IBLOCK_MAX : Nat := 511

/-- Modelled from the spec: `LC_CLUSTER_SIZE`, the staging-list length at
which a page cluster is force-flushed; the defining header is not in the
repository slice. -/
def LC_CLUSTER_SIZE : Nat := 256

/-- Modelled from the spec: `LC_INODE_CLUSTER_SIZE`, the size of a
reserved contiguous run of inode disk blocks; the defining header is not
in the repository slice. -/
def LC_INODE_CLUSTER_SIZE : Nat := 32

/-- POSIX file-type mask (`S_IFMT`). -/
def S_IFMT : Nat := 0xF000

/-- POSIX directory type bits (`S_IFDIR`). -/
def S_IFDIR : Nat := 0x4000

/-- POSIX regular-file type bits (`S_IFREG`). -/
def S_IFREG : Nat := 0x8000

/-- POSIX symlink type bits (`S_IFLNK`). -/
def S_IFLNK : Nat := 0xA000

/-- `S_ISREG` on a mode word. -/
def S_ISREG (m : Nat) : Bool := Nat.land m S_IFMT == S_IFREG

/-- `S_ISDIR` on a mode word. -/
def S_ISDIR (m : Nat) : Bool := Nat.land m S_IFMT == S_IFDIR

/-- `S_ISLNK` on a mode word. -/
def S_ISLNK (m : Nat) : Bool := Nat.land m S_IFMT == S_IFLNK

/-- The POSIX stat block carried inside the on-disk and in-memory inode
(`struct stat` as used by `inode.c`; timestamps are collapsed to one
number each, the clock being external). -/
structure Stat where
  st_ino : Nat
  st_mode : Nat
  st_nlink : Nat
  st_uid : Nat
  st_gid : Nat
  st_rdev : Nat
  st_size : Nat
  st_blocks : Nat
  st_blksize : Nat
  st_atim : Nat
  st_mtim : Nat
  st_ctim : Nat
deriving DecidableEq

/-- The all-zero stat block (`memset(inode, 0, ...)`). -/
def zeroStat : Stat :=
  { st_ino := 0, st_mode := 0, st_nlink := 0, st_uid := 0, st_gid := 0,
    st_rdev := 0, st_size := 0, st_blocks := 0, st_blksize := 0,
    st_atim := 0, st_mtim := 0, st_ctim := 0 }

/-- Modelled from the spec: `struct dinode`, the fixed-size serialized
inode (stat subset plus parent inode, extent pair, xattr block,
block-map-directory block); the defining header is not in the repository
slice. -/
structure Dinode where
  di_stat : Stat
  di_parent : Nat
  di_extentBlock : Nat
  di_extentLength : Nat
  di_xattrBlock : Nat
  di_bmapDirBlock : Nat
deriving DecidableEq

/-- The in-memory inode record (`struct inode`).  Pointer-valued payload
fields (`i_bmap`, `i_dirent`, extent lists, xattrs, dirty pages) are
modelled as optional identifiers so that aliasing between layers is
expressible; the symlink target is carried by value as its byte list.
`i_fs` is the identifier of the owning layer. -/
structure Inode where
  i_stat : Stat
  i_parent : Nat
  i_block : Nat
  i_bmapDirBlock : Nat
  i_xattrBlock : Nat
  i_extentBlock : Nat
  i_extentLength : Nat
  i_bmap : Option Nat
  i_bcount : Nat
  i_dirent : Option Nat
  i_target : Option (List Nat)
  i_bmapDirExtents : Option Nat
  i_xattrExtents : Option Nat
  i_xattr : Option Nat
  i_page : Option Nat
  i_pcount : Nat
  i_dpcount : Nat
  i_fs : Nat
  i_dirty : Bool
  i_bmapdirty : Bool
  i_dirdirty : Bool
  i_xattrdirty : Bool
  i_removed : Bool
  i_shared : Bool
  i_private : Bool
deriving DecidableEq

/-- The freshly allocated inode of `lc_newInode`: zero-filled except the
three block fields initialized to the invalid sentinel. -/
def emptyInode : Inode :=
  { i_stat := zeroStat, i_parent := 0, i_block := LC_INVALID_BLOCK,
    i_bmapDirBlock := LC_INVALID_BLOCK, i_xattrBlock := LC_INVALID_BLOCK,
    i_extentBlock := 0, i_extentLength := 0, i_bmap := none, i_bcount := 0,
    i_dirent := none, i_target := none, i_bmapDirExtents := none,
    i_xattrExtents := none, i_xattr := none, i_page := none, i_pcount := 0,
    i_dpcount := 0, i_fs := 0, i_dirty := false, i_bmapdirty := false,
    i_dirdirty := false, i_xattrdirty := false, i_removed := false,
    i_shared := false, i_private := false }

/-- The serialized portion of an inode: the `memcpy` of
`sizeof(struct dinode)` bytes starting at `&inode->i_dinode`. -/
def Inode.dinode (i : Inode) : Dinode :=
  { di_stat := i.i_stat, di_parent := i.i_parent,
    di_extentBlock := i.i_extentBlock, di_extentLength := i.i_extentLength,
    di_xattrBlock := i.i_xattrBlock, di_bmapDirBlock := i.i_bmapDirBlock }

/-- `lc_inodeHash`: bucket index of an inode number. -/
def lc_inodeHash (ino : Nat) : Nat := ino % LC_ICACHE_SIZE

/-- Modelled from the spec: `lc_getInodeHandle` is an external decoder
extracting the raw inode number from a handle whose high half may carry
extra bits. -/
def lc_getInodeHandle (ino : Nat) : Nat := ino % 2 ^ 32

/-- Reading the appended element of a list. -/
lemma listGetD_append_last {α : Type} (l : List α) (a d : α) :
    (l ++ [a]).getD l.length d = a := by
  simp [List.getD_eq_getElem?_getD]

/-- Appending does not change reads below the original length. -/
lemma listGetD_append_lt {α : Type} (l l2 : List α) (n : Nat) (d : α)
    (h : n < l.length) : (l ++ l2).getD n d = l.getD n d :=
  List.getD_append l l2 d n h

/-- Writing one position does not change reads elsewhere. -/
lemma listGetD_set_ne {α : Type} (l : List α) (i j : Nat) (v d : α)
    (h : i ≠ j) : (l.set i v).getD j d = l.getD j d := by
  simp [List.getD_eq_getElem?_getD, List.getElem?_set_ne h]

/-- Reading back an in-range write. -/
lemma listGetD_set_self {α : Type} (l : List α) (i : Nat) (v d : α)
    (h : i < l.length) : (l.set i v).getD i d = v := by
  simp [List.getD_eq_getElem?_getD, List.getElem?_set_self, h]

namespace Lookup

/-!
Embedding of the lookup / copy-on-write side of `inode.c`:
`lc_newInode`, `lc_addInode`, `lc_lookupInodeCache`, `lc_lookupInode`,
`lc_updateInodeTimes`, `lc_rootInit`, `lc_cloneInode`,
`lc_getInodeParent`, `lc_getInode`, `lc_inodeAlloc`, `lc_inodeInit`.

Inodes live in a heap (`St.heap`) addressed by index: a heap index plays
the role of a C inode pointer, so aliasing of records between layers is
faithful.  Layers (`struct fs`) live in `St.layers`, linked through
`fs_parent` indices.  Fatal `assert` calls are modelled by an `Option`
result (`none` = process abort); per-inode reader/writer locks are
concurrency-only no-ops and are not modelled.  The parent-chain loop of
`lc_getInodeParent` is given explicit fuel since the embedding cannot
know the pointer chain is acyclic.
-/

/-- The per-layer state (`struct fs`) as used by the lookup paths.  The
inode cache holds heap indices; bucket `i` of the conceptual
`LC_ICACHE_SIZE`-sized array is `fs_icache.getD i []`. -/
structure Fs where
  fs_root : Nat
  fs_rootInode : Option Nat
  fs_parent : Option Nat
  fs_snap : Option Nat
  fs_icache : List (List Nat)
  fs_icount : Nat
  fs_removed : Bool
  fs_frozen : Bool
deriving DecidableEq

/-- A default layer, used only as the out-of-range fallback of `getFs`. -/
def defaultFs : Fs :=
  { fs_root := 0, fs_rootInode := none, fs_parent := none, fs_snap := none,
    fs_icache := [], fs_icount := 0, fs_removed := false, fs_frozen := false }

/-- Global state: the inode heap, the layer table and the global
filesystem / superblock counters touched by `inode.c`. -/
structure St where
  heap : List Inode
  layers : List Fs
  sb_inodes : Nat
  sb_ninode : Nat
  gfs_clones : Nat
  gfs_snap_root : Nat
  gfs_snap_rootInode : Option Nat
deriving DecidableEq

/-- Dereference an inode pointer (heap index). -/
def getI (s : St) (iid : Nat) : Inode := s.heap.getD iid emptyInode

/-- Write through an inode pointer. -/
def setI (s : St) (iid : Nat) (i : Inode) : St :=
  { s with heap := s.heap.set iid i }

/-- Dereference a layer pointer (index into the layer table). -/
def getFs (s : St) (f : Nat) : Fs := s.layers.getD f defaultFs

/-- Write through a layer pointer. -/
def setFs (s : St) (f : Nat) (fs : Fs) : St :=
  { s with layers := s.layers.set f fs }

/-- `lc_newInode`: allocate a zero-filled inode with sentinel block
fields and bump the global superblock inode count and the layer's
resident count (both 64-bit atomics).  Returns the fresh pointer. -/
def lc_newInode (s : St) (f : Nat) : St × Nat :=
  let iid := s.heap.length
  let s1 : St := { s with heap := s.heap ++ [emptyInode],
                          sb_inodes := (s.sb_inodes + 1) % U64 }
  let fs := getFs s1 f
  (setFs s1 f { fs with fs_icount := (fs.fs_icount + 1) % U64 }, iid)

/-- `lc_addInode`: prepend the inode to its hash bucket of layer `f` and
set `i_fs` to the layer. -/
def lc_addInode (s : St) (f : Nat) (iid : Nat) : St :=
  let h := lc_inodeHash (getI s iid).i_stat.st_ino
  let fs := getFs s f
  let bucket := fs.fs_icache.getD h []
  let s1 := setFs s f { fs with fs_icache := fs.fs_icache.set h (iid :: bucket) }
  setI s1 iid { getI s1 iid with i_fs := f }

/-- The bucket-list walk of `lc_lookupInodeCache`: first entry with the
requested inode number. -/
def bucketFind (s : St) (ino : Nat) : List Nat → Option Nat
  | [] => none
  | iid :: rest =>
    if (getI s iid).i_stat.st_ino = ino then some iid
    else bucketFind s ino rest

/-- `lc_lookupInodeCache`: search the bucket `ino mod LC_ICACHE_SIZE` of
layer `f`. -/
def lc_lookupInodeCache (s : St) (f : Nat) (ino : Nat) : Option Nat :=
  bucketFind s ino ((getFs s f).fs_icache.getD (lc_inodeHash ino) [])

/-- `lc_lookupInode`: the layer-root and snapshot-root shortcuts, then
the hash cache. -/
def lc_lookupInode (s : St) (f : Nat) (ino : Nat) : Option Nat :=
  let fs := getFs s f
  if ino = fs.fs_root then fs.fs_rootInode
  else if ino = s.gfs_snap_root then s.gfs_snap_rootInode
  else lc_lookupInodeCache s f ino

/-- `lc_updateInodeTimes`; the realtime clock reading is the external
input `tv`. -/
def lc_updateInodeTimes (i : Inode) (tv : Nat)
    (atime mtime ctime : Bool) : Inode :=
  let s0 := i.i_stat
  let s1 := if atime then { s0 with st_atim := tv } else s0
  let s2 := if mtime then { s1 with st_mtim := tv } else s1
  let s3 := if ctime then { s2 with st_ctim := tv } else s2
  { i with i_stat := s3 }

/-- Modelled from the spec: `lc_markInodeDirty(inode, flagSet)` (defined
outside the repository slice) raises the requested dirty flags (inode
record, metadata / block map, directory, xattr). -/
def lc_markInodeDirty (i : Inode) (dirty bmap dir xattr : Bool) : Inode :=
  { i with i_dirty := dirty || i.i_dirty,
           i_bmapdirty := bmap || i.i_bmapdirty,
           i_dirdirty := dir || i.i_dirdirty,
           i_xattrdirty := xattr || i.i_xattrdirty }

/-- `lc_rootInit`: allocate and register the layer root inode. -/
def lc_rootInit (s : St) (f : Nat) (root : Nat) (tv : Nat) : St :=
  let (s1, iid) := lc_newInode s f
  let i0 := getI s1 iid
  let st1 :=
    { i0.i_stat with
      st_ino := root, st_mode := S_IFDIR + 0o755,
      st_nlink := 2, st_blksize := LC_BLOCK_SIZE }
  let i1 := { i0 with i_stat := st1, i_parent := root }
  let i2 := lc_updateInodeTimes i1 tv true true true
  let i3 := { i2 with i_fs := f }
  let s2 := setI s1 iid i3
  let s3 := lc_addInode s2 f iid
  let s4 := setFs s3 f { getFs s3 f with fs_rootInode := some iid }
  setI s4 iid (lc_markInodeDirty (getI s4 iid) true true false false)

/-- The variant-payload section of `lc_cloneInode`: share pages, block
map, directory entries or symlink target with the parent according to
the file type.  `none` models the fatal assertions on the parent's
dirty-page state inside the regular-file branch. -/
def cloneVariantPayload (parent i1 : Inode) : Option Inode :=
  if S_ISREG i1.i_stat.st_mode then
    -- assert(parent->i_page == NULL); assert(parent->i_dpcount == 0)
    if parent.i_page ≠ none ∨ parent.i_dpcount ≠ 0 then none
    else if parent.i_stat.st_blocks ≠ 0 then
      if parent.i_extentLength ≠ 0 then
        some { i1 with i_extentBlock := parent.i_extentBlock,
                       i_extentLength := parent.i_extentLength }
      else
        some { i1 with i_bmap := parent.i_bmap,
                       i_bcount := parent.i_bcount,
                       i_bmapdirty := true, i_shared := true }
    else some { i1 with i_private := true }
  else if S_ISDIR i1.i_stat.st_mode then
    if parent.i_dirent ≠ none then
      some { i1 with i_dirent := parent.i_dirent, i_shared := true,
                     i_dirdirty := true }
    else some i1
  else if S_ISLNK i1.i_stat.st_mode then
    some { i1 with i_target := parent.i_target, i_shared := true }
  else some i1

/-- `lc_cloneInode`: clone a parent-layer inode into layer `f`, sharing
variant payload.  `none` models the fatal assertions on the parent's
dirty-page state.  Returns the pointer of the new inode. -/
def lc_cloneInode (s : St) (f : Nat) (parentId : Nat) (ino : Nat) :
    Option (St × Nat) :=
  let (s1, iid) := lc_newInode s f
  let parent := getI s1 parentId
  let i1 := { getI s1 iid with i_stat := parent.i_stat }
  match cloneVariantPayload parent i1 with
  | none => none
  | some i2 =>
    let i3 := { i2 with i_parent :=
      if parent.i_parent = (getFs s1 parent.i_fs).fs_root then
        (getFs s1 f).fs_root
      else parent.i_parent }
    -- lc_xattrCopy (external): copy the xattr reference
    let i4 := { i3 with i_xattr := parent.i_xattr }
    let s2 := setI s1 iid i4
    let s3 := lc_addInode s2 f iid
    let s4 := setI s3 iid { getI s3 iid with i_dirty := true }
    some ({ s4 with gfs_clones := (s4.gfs_clones + 1) % U64 }, iid)

/-- The `while (pfs)` ancestor loop of `lc_getInodeParent`, walking the
`fs_parent` chain with explicit fuel.  `none` is a fatal assertion (or
exhausted fuel on a chain longer than the fuel). -/
def lc_parentWalk (s : St) (f : Nat) (inum : Nat) (copy : Bool) :
    Option Nat → Nat → Option (St × Option Nat)
  | _, 0 => none
  | none, _ + 1 => some (s, none)
  | some p, fuel + 1 =>
    match lc_lookupInodeCache s p inum with
    | some parentId =>
      -- do not clone if the inode is removed in a parent layer
      if (getI s parentId).i_removed then some (s, none)
      else if copy then
        -- assert(fs->fs_snap == NULL)
        if (getFs s f).fs_snap ≠ none then none
        else
          match lc_cloneInode s f parentId inum with
          | none => none
          | some (s1, iid) => some (s1, some iid)
      else some (s, some parentId)
    | none => lc_parentWalk s f inum copy (getFs s p).fs_parent fuel

/-- `lc_getInodeParent`: under the layer `ilock`, re-check the local
cache, then walk the ancestor chain. -/
def lc_getInodeParent (s : St) (f : Nat) (inum : Nat) (copy : Bool)
    (fuel : Nat) : Option (St × Option Nat) :=
  match lc_lookupInodeCache s f inum with
  | some iid => some (s, some iid)
  | none => lc_parentWalk s f inum copy (getFs s f).fs_parent fuel

/-- `lc_getInode`: handle fast path, local lookup, then the parent
chain; the requested lock mode is concurrency-only and ignored.  `none`
is a fatal assertion (`assert(!fs->fs_removed)`, the handle inode-number
assertion, or an assertion further down the clone path). -/
def lc_getInode (s : St) (f : Nat) (ino : Nat) (handle : Option Nat)
    (copy : Bool) (exclusive : Bool) (fuel : Nat) :
    Option (St × Option Nat) :=
  let inum := lc_getInodeHandle ino
  if (getFs s f).fs_removed then none
  else
    let fromHandle : Option (Option (St × Option Nat)) :=
      match handle with
      | some h =>
        if ¬copy ∨ (getI s h).i_fs = f then
          if (getI s h).i_stat.st_ino = inum then some (some (s, some h))
          else some none
        else none
      | none => none
    match fromHandle with
    | some r => r
    | none =>
      match lc_lookupInode s f inum with
      | some iid => some (s, some iid)
      | none =>
        match (getFs s f).fs_parent with
        | some _ => lc_getInodeParent s f inum copy fuel
        | none => some (s, none)

/-- `lc_inodeAlloc`: bump the superblock next-inode counter and return
the new value. -/
def lc_inodeAlloc (s : St) : St × Nat :=
  let n := (s.sb_ninode + 1) % U64
  ({ s with sb_ninode := n }, n)

/-- `lc_inodeInit`: allocate and initialize a fresh inode in layer `f`;
the realtime clock reading is the external input `tv`.  Returns the new
inode's pointer (the write lock taken by the C code is a no-op here). -/
def lc_inodeInit (s : St) (f : Nat) (mode uid gid rdev parent : Nat)
    (target : Option (List Nat)) (tv : Nat) : St × Nat :=
  let (s1, ino) := lc_inodeAlloc s
  let (s2, iid) := lc_newInode s1 f
  let i0 := getI s2 iid
  let st1 :=
    { i0.i_stat with
      st_ino := ino, st_mode := mode,
      st_nlink := if S_ISDIR mode then 2 else 1, st_uid := uid,
      st_gid := gid, st_rdev := rdev, st_blksize := LC_BLOCK_SIZE }
  let i1 :=
    { i0 with
      i_stat := st1, i_parent := lc_getInodeHandle parent,
      i_private := S_ISREG mode }
  let i2 := lc_updateInodeTimes i1 tv true true true
  let i3 :=
    match target with
    | some t =>
      { i2 with i_target := some t,
                i_stat := { i2.i_stat with st_size := t.length } }
    | none => i2
  let s3 := setI s2 iid i3
  (lc_addInode s3 f iid, iid)

/-- The ancestor chain of a layer pointer: the list of layer indices the
`while (pfs)` loop of `lc_getInodeParent` visits, provided the chain
reaches null within `fuel` steps (`none` otherwise). -/
def fsChain (s : St) : Option Nat → Nat → Option (List Nat)
  | none, _ => some []
  | some _, 0 => none
  | some p, fuel + 1 =>
    match fsChain s (getFs s p).fs_parent fuel with
    | some l => some (p :: l)
    | none => none

/-- If every layer before `q` on the ancestor chain misses the cache,
`q` hits it with a non-removed inode, and `copy = false`, the ancestor
walk returns exactly `q`'s cache entry and leaves the state unchanged. -/
lemma parentWalk_found (s : St) (f inum qid : Nat) :
    ∀ (pre rest : List Nat) (q : Nat) (pfs : Option Nat) (fuel : Nat),
    fsChain s pfs fuel = some (pre ++ q :: rest) →
    (∀ r ∈ pre, lc_lookupInodeCache s r inum = none) →
    lc_lookupInodeCache s q inum = some qid →
    (getI s qid).i_removed = false →
    lc_parentWalk s f inum false pfs fuel = some (s, some qid) := by
  intro pre
  induction pre with
  | nil =>
    intro rest q pfs fuel hchain hpre hq hnr
    match pfs, fuel with
    | none, fuel => simp [fsChain] at hchain
    | some p, 0 => simp [fsChain] at hchain
    | some p, fuel + 1 =>
      simp only [fsChain, List.nil_append] at hchain
      rcases h2 : fsChain s (getFs s p).fs_parent fuel with _ | l <;>
        rw [h2] at hchain
      · simp at hchain
      · simp only [Option.some.injEq, List.cons.injEq] at hchain
        obtain ⟨hpq, hl⟩ := hchain
        subst hpq
        simp [lc_parentWalk, hq, hnr]
  | cons r pre ih =>
    intro rest q pfs fuel hchain hpre hq hnr
    match pfs, fuel with
    | none, fuel => simp [fsChain] at hchain
    | some p, 0 => simp [fsChain] at hchain
    | some p, fuel + 1 =>
      simp only [fsChain, List.cons_append] at hchain
      rcases h2 : fsChain s (getFs s p).fs_parent fuel with _ | l <;>
        rw [h2] at hchain
      · simp at hchain
      · simp only [Option.some.injEq, List.cons.injEq] at hchain
        obtain ⟨hpr, hl⟩ := hchain
        subst hl
        rw [hpr] at h2 ⊢
        have hrnone : lc_lookupInodeCache s r inum = none :=
          hpre r (List.mem_cons_self r pre)
        simp only [lc_parentWalk, hrnone]
        exact ih rest q (getFs s r).fs_parent fuel h2
          (fun x hx => hpre x (List.mem_cons_of_mem r hx)) hq hnr

/-- If the first cache hit on the ancestor chain is a removed inode, the
walk returns null and leaves the state unchanged, for either value of
`copy`. -/
lemma parentWalk_removed (s : St) (f inum qid : Nat) (copy : Bool) :
    ∀ (pre rest : List Nat) (q : Nat) (pfs : Option Nat) (fuel : Nat),
    fsChain s pfs fuel = some (pre ++ q :: rest) →
    (∀ r ∈ pre, lc_lookupInodeCache s r inum = none) →
    lc_lookupInodeCache s q inum = some qid →
    (getI s qid).i_removed = true →
    lc_parentWalk s f inum copy pfs fuel = some (s, none) := by
  intro pre
  induction pre with
  | nil =>
    intro rest q pfs fuel hchain hpre hq hr
    match pfs, fuel with
    | none, fuel => simp [fsChain] at hchain
    | some p, 0 => simp [fsChain] at hchain
    | some p, fuel + 1 =>
      simp only [fsChain, List.nil_append] at hchain
      rcases h2 : fsChain s (getFs s p).fs_parent fuel with _ | l <;>
        rw [h2] at hchain
      · simp at hchain
      · simp only [Option.some.injEq, List.cons.injEq] at hchain
        obtain ⟨hpq, hl⟩ := hchain
        subst hpq
        simp [lc_parentWalk, hq, hr]
  | cons r pre ih =>
    intro rest q pfs fuel hchain hpre hq hr
    match pfs, fuel with
    | none, fuel => simp [fsChain] at hchain
    | some p, 0 => simp [fsChain] at hchain
    | some p, fuel + 1 =>
      simp only [fsChain, List.cons_append] at hchain
      rcases h2 : fsChain s (getFs s p).fs_parent fuel with _ | l <;>
        rw [h2] at hchain
      · simp at hchain
      · simp only [Option.some.injEq, List.cons.injEq] at hchain
        obtain ⟨hpr, hl⟩ := hchain
        subst hl
        rw [hpr] at h2 ⊢
        have hrnone : lc_lookupInodeCache s r inum = none :=
          hpre r (List.mem_cons_self r pre)
        simp only [lc_parentWalk, hrnone]
        exact ih rest q (getFs s r).fs_parent fuel h2
          (fun x hx => hpre x (List.mem_cons_of_mem r hx)) hq hr

/-- A removed (tombstoned) inode with number 5, resident in layer 1. -/
def tombInode : Inode :=
  { emptyInode with i_stat := { zeroStat with st_ino := 5 },
                    i_removed := true, i_fs := 1 }

/-- A live inode with number 5, resident in layer 2. -/
def liveInode : Inode :=
  { emptyInode with i_stat := { zeroStat with st_ino := 5 }, i_fs := 2 }

/-- Child layer 0: empty cache, parent layer 1. -/
def childFs : Fs := { defaultFs with fs_root := 2, fs_parent := some 1 }

/-- Middle layer 1 holding the tombstoned inode 5 (heap index 0) in
bucket 5; its parent is layer 2. -/
def midFsTomb : Fs :=
  { defaultFs with fs_root := 2, fs_parent := some 2,
                   fs_icache := [[], [], [], [], [], [0]] }

/-- Middle layer 1 with an empty cache; its parent is layer 2. -/
def midFsEmpty : Fs := { defaultFs with fs_root := 2, fs_parent := some 2 }

/-- Base layer 2 holding the live inode 5 (heap index 1) in bucket 5. -/
def baseFs : Fs :=
  { defaultFs with fs_root := 2,
                   fs_icache := [[], [], [], [], [], [1]] }

/-- Three-layer state in which the tombstone in layer 1 shadows the live
inode in layer 2. -/
def shadowSt : St :=
  { heap := [tombInode, liveInode], layers := [childFs, midFsTomb, baseFs],
    sb_inodes := 2, sb_ninode := 5, gfs_clones := 0, gfs_snap_root := 0,
    gfs_snap_rootInode := none }

/-- Three-layer state in which only the base layer 2 holds inode 5. -/
def deepSt : St :=
  { heap := [tombInode, liveInode], layers := [childFs, midFsEmpty, baseFs],
    sb_inodes := 2, sb_ninode := 5, gfs_clones := 0, gfs_snap_root := 0,
    gfs_snap_rootInode := none }

/-- A single removed layer, for the `assert(!fs->fs_removed)` path. -/
def removedLayerSt : St :=
  { heap := [], layers := [{ defaultFs with fs_removed := true }],
    sb_inodes := 0, sb_ninode := 0, gfs_clones := 0, gfs_snap_root := 0,
    gfs_snap_rootInode := none }

/-- C1 (amended): for a layer whose cache (and root shortcuts) miss the
requested number, `lc_getInode` with `copy = false` returns the cache
entry of the nearest ancestor whose cache contains the number, provided
that entry is not removed; the state is unchanged. -/
theorem C1_nearest_ancestor_hit (s : St) (f p ino fuel : Nat)
    (pre rest : List Nat) (q qid : Nat) (exclusive : Bool)
    (hrm : (getFs s f).fs_removed = false)
    (hroot : lc_getInodeHandle ino ≠ (getFs s f).fs_root)
    (hsnap : lc_getInodeHandle ino ≠ s.gfs_snap_root)
    (hloc : lc_lookupInodeCache s f (lc_getInodeHandle ino) = none)
    (hpar : (getFs s f).fs_parent = some p)
    (hchain : fsChain s (some p) fuel = some (pre ++ q :: rest))
    (hpre : ∀ r ∈ pre, lc_lookupInodeCache s r (lc_getInodeHandle ino) = none)
    (hq : lc_lookupInodeCache s q (lc_getInodeHandle ino) = some qid)
    (hnr : (getI s qid).i_removed = false) :
    lc_getInode s f ino none false exclusive fuel = some (s, some qid) := by
  have hwalk := parentWalk_found s f (lc_getInodeHandle ino) qid pre rest q
    (some p) fuel hchain hpre hq hnr
  have hlook : lc_lookupInode s f (lc_getInodeHandle ino) = none := by
    simp only [lc_lookupInode, if_neg hroot, if_neg hsnap, hloc]
  simp only [lc_getInode, hrm, Bool.false_eq_true, if_false, hlook,
    lc_getInodeParent, hloc, hpar]
  exact hwalk

/-- C1 witness: in the concrete three-layer state `deepSt`, inode 5 is
absent from layers 0 and 1 and resident (not removed) in layer 2; the
lookup returns that record. -/
theorem C1_nearest_ancestor_hit_witness :
    lc_getInode deepSt 0 5 none false false 3 = some (deepSt, some 1) :=
  C1_nearest_ancestor_hit deepSt 0 1 5 3 [1] [] 2 1 false
    (by decide) (by decide) (by decide) (by decide) (by decide) (by decide)
    (by decide) (by decide) (by decide)

/-- C1 counterexample: in `shadowSt` the nearest ancestor whose cache
contains inode 5 with a non-removed entry is layer 2 (heap index 1), the
nearer layer 1 holding only a tombstone; yet `lc_getInode` with
`copy = false` returns null rather than that record, refuting the claim
that the nearest ancestor with a non-removed entry is the source. -/
theorem C1_nearest_ancestor_counterexample :
    lc_lookupInodeCache shadowSt 0 5 = none ∧
    (getFs shadowSt 0).fs_parent = some 1 ∧
    fsChain shadowSt (some 1) 3 = some [1, 2] ∧
    lc_lookupInodeCache shadowSt 1 5 = some 0 ∧
    (getI shadowSt 0).i_removed = true ∧
    lc_lookupInodeCache shadowSt 2 5 = some 1 ∧
    (getI shadowSt 1).i_removed = false ∧
    lc_getInode shadowSt 0 5 none false false 3 = some (shadowSt, none) ∧
    lc_getInode shadowSt 0 5 none false false 3 ≠ some (shadowSt, some 1) := by
  decide

/-- C2: if the first ancestor whose cache contains the requested number
holds it with `removed = true`, `lc_getInode` returns null and the state
is unchanged (in particular no clone is created in the requesting
layer), for either value of `copy`. -/
theorem C2_removed_ancestor_returns_null (s : St) (f p ino fuel : Nat)
    (pre rest : List Nat) (q qid : Nat) (copy exclusive : Bool)
    (hrm : (getFs s f).fs_removed = false)
    (hroot : lc_getInodeHandle ino ≠ (getFs s f).fs_root)
    (hsnap : lc_getInodeHandle ino ≠ s.gfs_snap_root)
    (hloc : lc_lookupInodeCache s f (lc_getInodeHandle ino) = none)
    (hpar : (getFs s f).fs_parent = some p)
    (hchain : fsChain s (some p) fuel = some (pre ++ q :: rest))
    (hpre : ∀ r ∈ pre, lc_lookupInodeCache s r (lc_getInodeHandle ino) = none)
    (hq : lc_lookupInodeCache s q (lc_getInodeHandle ino) = some qid)
    (hr : (getI s qid).i_removed = true) :
    lc_getInode s f ino none copy exclusive fuel = some (s, none) := by
  have hwalk := parentWalk_removed s f (lc_getInodeHandle ino) qid copy
    pre rest q (some p) fuel hchain hpre hq hr
  have hlook : lc_lookupInode s f (lc_getInodeHandle ino) = none := by
    simp only [lc_lookupInode, if_neg hroot, if_neg hsnap, hloc]
  simp only [lc_getInode, hrm, Bool.false_eq_true, if_false, hlook,
    lc_getInodeParent, hloc, hpar]
  exact hwalk

/-- C2 witness: in `shadowSt`, the nearest ancestor holding inode 5 is
the tombstone in layer 1; even with `copy = true` the lookup returns
null and creates nothing. -/
theorem C2_removed_ancestor_returns_null_witness :
    lc_getInode shadowSt 0 5 none true false 3 = some (shadowSt, none) :=
  C2_removed_ancestor_returns_null shadowSt 0 1 5 3 [] [2] 1 0 true false
    (by decide) (by decide) (by decide) (by decide) (by decide) (by decide)
    (by decide) (by decide) (by decide)

/-- C10: calling `lc_getInode` on a layer whose `fs_removed` flag is set
is the fatal assertion `assert(!fs->fs_removed)` (modelled `none`),
never a null return. -/
theorem C10_removed_layer_is_fatal (s : St) (f ino : Nat)
    (handle : Option Nat) (copy exclusive : Bool) (fuel : Nat)
    (h : (getFs s f).fs_removed = true) :
    lc_getInode s f ino handle copy exclusive fuel = none := by
  simp only [lc_getInode, h, if_true]

/-- C10 witness: on the concrete removed layer, `lc_getInode` aborts. -/
theorem C10_removed_layer_is_fatal_witness :
    (getFs removedLayerSt 0).fs_removed = true ∧
    lc_getInode removedLayerSt 0 1 none false false 1 = none :=
  ⟨by decide, C10_removed_layer_is_fatal removedLayerSt 0 1 none false false 1
    (by decide)⟩

/-- The state produced by `lc_newInode`, named for stepping proofs. -/
def newInodeSt (s : St) (f : Nat) : St := (lc_newInode s f).1

/-- `lc_newInode` returns `newInodeSt` and the old heap length as the
fresh pointer. -/
lemma lc_newInode_eq (s : St) (f : Nat) :
    lc_newInode s f = (newInodeSt s f, s.heap.length) := rfl

/-- The new heap is the old heap with one zero-initialized inode. -/
lemma newInodeSt_heap (s : St) (f : Nat) :
    (newInodeSt s f).heap = s.heap ++ [emptyInode] := rfl

/-- `lc_newInode` leaves existing inode records unchanged. -/
lemma getI_newInodeSt_lt (s : St) (f j : Nat) (h : j < s.heap.length) :
    getI (newInodeSt s f) j = getI s j := by
  unfold getI
  rw [newInodeSt_heap]
  exact listGetD_append_lt _ _ _ _ h

/-- The fresh inode record is the zero-initialized one. -/
lemma getI_newInodeSt_self (s : St) (f : Nat) :
    getI (newInodeSt s f) s.heap.length = emptyInode := by
  unfold getI
  rw [newInodeSt_heap]
  exact listGetD_append_last _ _ _

/-- Heap length after `lc_newInode`. -/
lemma newInodeSt_heap_len (s : St) (f : Nat) :
    (newInodeSt s f).heap.length = s.heap.length + 1 := by
  rw [newInodeSt_heap]
  simp

/-- `lc_newInode` bumps the superblock inode count. -/
lemma newInodeSt_sb (s : St) (f : Nat) :
    (newInodeSt s f).sb_inodes = (s.sb_inodes + 1) % U64 := rfl

/-- `lc_newInode` bumps the target layer's resident count and changes
nothing else in that layer. -/
lemma getFs_newInodeSt (s : St) (f : Nat) (h : f < s.layers.length) :
    getFs (newInodeSt s f) f =
      { getFs s f with fs_icount := ((getFs s f).fs_icount + 1) % U64 } := by
  unfold newInodeSt lc_newInode setFs getFs
  exact listGetD_set_self _ _ _ _ h

/-- `setI` does not change the layer table. -/
lemma getFs_setI (s : St) (iid : Nat) (v : Inode) (f : Nat) :
    getFs (setI s iid v) f = getFs s f := rfl

/-- `setFs` does not change the heap. -/
lemma getI_setFs (s : St) (f : Nat) (fs : Fs) (j : Nat) :
    getI (setFs s f fs) j = getI s j := rfl

/-- Reading back an in-range `setI`. -/
lemma getI_setI_self (s : St) (iid : Nat) (v : Inode)
    (h : iid < s.heap.length) : getI (setI s iid v) iid = v :=
  listGetD_set_self _ _ _ _ h

/-- `setI` does not change other records. -/
lemma getI_setI_ne (s : St) (iid : Nat) (v : Inode) (j : Nat)
    (h : iid ≠ j) : getI (setI s iid v) j = getI s j :=
  listGetD_set_ne _ _ _ _ _ h

/-- `setI` preserves the heap length. -/
lemma setI_heap_len (s : St) (iid : Nat) (v : Inode) :
    (setI s iid v).heap.length = s.heap.length := by
  unfold setI
  simp

/-- `lc_addInode` rewrites only `i_fs` of the target record. -/
lemma getI_addInode_self (s : St) (f iid : Nat) (h : iid < s.heap.length) :
    getI (lc_addInode s f iid) iid = { getI s iid with i_fs := f } := by
  unfold lc_addInode
  rw [getI_setI_self]
  · rw [getI_setFs]
  · unfold setFs
    simpa using h

/-- `lc_addInode` does not change other records. -/
lemma getI_addInode_ne (s : St) (f iid j : Nat) (h : iid ≠ j) :
    getI (lc_addInode s f iid) j = getI s j := by
  unfold lc_addInode
  rw [getI_setI_ne _ _ _ _ h, getI_setFs]

/-- `lc_addInode` preserves the heap length. -/
lemma addInode_heap_len (s : St) (f iid : Nat) :
    (lc_addInode s f iid).heap.length = s.heap.length := by
  unfold lc_addInode setI setFs
  simp

/-- `lc_addInode` preserves the superblock inode count. -/
lemma addInode_sb (s : St) (f iid : Nat) :
    (lc_addInode s f iid).sb_inodes = s.sb_inodes := rfl

/-- `setI` preserves the superblock inode count. -/
lemma setI_sb (s : St) (iid : Nat) (v : Inode) :
    (setI s iid v).sb_inodes = s.sb_inodes := rfl

/-- Changing the clone counter does not change inode records. -/
lemma getI_gfs_clones (s : St) (c j : Nat) :
    getI { s with gfs_clones := c } j = getI s j := rfl

/-- C4: cloning a regular-file parent with allocated blocks, no extent
and a non-empty block map yields a child that aliases the parent's block
map pointer and count, with `shared`, `bmapdirty` and `dirty` set; no
pre-existing inode record (in particular not the parent's) is modified. -/
theorem C4_clone_shares_block_map (s : St) (f parentId ino bm : Nat)
    (hlt : parentId < s.heap.length)
    (hreg : S_ISREG (getI s parentId).i_stat.st_mode = true)
    (hpage : (getI s parentId).i_page = none)
    (hdp : (getI s parentId).i_dpcount = 0)
    (hblocks : (getI s parentId).i_stat.st_blocks ≠ 0)
    (hext : (getI s parentId).i_extentLength = 0)
    (hbmap : (getI s parentId).i_bmap = some bm)
    (hbc : (getI s parentId).i_bcount ≠ 0) :
    ∃ s1, lc_cloneInode s f parentId ino = some (s1, s.heap.length) ∧
      (getI s1 s.heap.length).i_bmap = (getI s parentId).i_bmap ∧
      (getI s1 s.heap.length).i_bcount = (getI s parentId).i_bcount ∧
      (getI s1 s.heap.length).i_shared = true ∧
      (getI s1 s.heap.length).i_bmapdirty = true ∧
      (getI s1 s.heap.length).i_dirty = true ∧
      (∀ j, j < s.heap.length → getI s1 j = getI s j) ∧
      getI s1 parentId = getI s parentId := by
  have hp1 : getI (newInodeSt s f) parentId = getI s parentId :=
    getI_newInodeSt_lt s f parentId hlt
  have hvar : cloneVariantPayload (getI s parentId)
      { emptyInode with i_stat := (getI s parentId).i_stat } =
      some { emptyInode with
             i_stat := (getI s parentId).i_stat,
             i_bmap := (getI s parentId).i_bmap,
             i_bcount := (getI s parentId).i_bcount,
             i_bmapdirty := true, i_shared := true } := by
    unfold cloneVariantPayload
    simp [hreg, hpage, hdp, hblocks, hext]
  simp only [lc_cloneInode, lc_newInode_eq, hp1, getI_newInodeSt_self, hvar]
  refine ⟨_, rfl, ?_, ?_, ?_, ?_, ?_, ?_, ?_⟩
  case _ =>
    rw [getI_gfs_clones, getI_setI_self, getI_addInode_self, getI_setI_self]
    · exact newInodeSt_heap_len s f ▸ Nat.lt_succ_self _
    · rw [setI_heap_len, newInodeSt_heap_len]
      exact Nat.lt_succ_self _
    · rw [addInode_heap_len, setI_heap_len, newInodeSt_heap_len]
      exact Nat.lt_succ_self _
  case _ =>
    rw [getI_gfs_clones, getI_setI_self, getI_addInode_self, getI_setI_self]
    · exact newInodeSt_heap_len s f ▸ Nat.lt_succ_self _
    · rw [setI_heap_len, newInodeSt_heap_len]
      exact Nat.lt_succ_self _
    · rw [addInode_heap_len, setI_heap_len, newInodeSt_heap_len]
      exact Nat.lt_succ_self _
  case _ =>
    rw [getI_gfs_clones, getI_setI_self, getI_addInode_self, getI_setI_self]
    · exact newInodeSt_heap_len s f ▸ Nat.lt_succ_self _
    · rw [setI_heap_len, newInodeSt_heap_len]
      exact Nat.lt_succ_self _
    · rw [addInode_heap_len, setI_heap_len, newInodeSt_heap_len]
      exact Nat.lt_succ_self _
  case _ =>
    rw [getI_gfs_clones, getI_setI_self, getI_addInode_self, getI_setI_self]
    · exact newInodeSt_heap_len s f ▸ Nat.lt_succ_self _
    · rw [setI_heap_len, newInodeSt_heap_len]
      exact Nat.lt_succ_self _
    · rw [addInode_heap_len, setI_heap_len, newInodeSt_heap_len]
      exact Nat.lt_succ_self _
  case _ =>
    rw [getI_gfs_clones, getI_setI_self, getI_addInode_self, getI_setI_self]
    · exact newInodeSt_heap_len s f ▸ Nat.lt_succ_self _
    · rw [setI_heap_len, newInodeSt_heap_len]
      exact Nat.lt_succ_self _
    · rw [addInode_heap_len, setI_heap_len, newInodeSt_heap_len]
      exact Nat.lt_succ_self _
  case _ =>
    intro j hj
    have hne : s.heap.length ≠ j := by omega
    rw [getI_gfs_clones, getI_setI_ne _ _ _ _ hne, getI_addInode_ne _ _ _ _ hne,
      getI_setI_ne _ _ _ _ hne, getI_newInodeSt_lt _ _ _ hj]
  case _ =>
    have hne : s.heap.length ≠ parentId := by omega
    rw [getI_gfs_clones, getI_setI_ne _ _ _ _ hne, getI_addInode_ne _ _ _ _ hne,
      getI_setI_ne _ _ _ _ hne, getI_newInodeSt_lt _ _ _ hlt]

/-- A regular-file parent inode with three allocated blocks represented
by a block map (pointer id 7). -/
def bmapParent : Inode :=
  { emptyInode with
    i_stat := { zeroStat with st_ino := 9, st_mode := 0x81A4, st_blocks := 3 },
    i_bmap := some 7, i_bcount := 3, i_fs := 1 }

/-- One-inode state used to exercise `lc_cloneInode`. -/
def cloneSrcSt : St :=
  { heap := [bmapParent], layers := [defaultFs, defaultFs],
    sb_inodes := 1, sb_ninode := 9, gfs_clones := 0, gfs_snap_root := 0,
    gfs_snap_rootInode := none }

/-- C4 witness: cloning the concrete regular-file parent `bmapParent`
yields a child aliasing block-map pointer 7 with the dirty and shared
flags set, the parent record being untouched. -/
theorem C4_clone_shares_block_map_witness :
    ∃ s1, lc_cloneInode cloneSrcSt 0 0 9 = some (s1, cloneSrcSt.heap.length) ∧
      (getI s1 cloneSrcSt.heap.length).i_bmap = (getI cloneSrcSt 0).i_bmap ∧
      (getI s1 cloneSrcSt.heap.length).i_bcount = (getI cloneSrcSt 0).i_bcount ∧
      (getI s1 cloneSrcSt.heap.length).i_shared = true ∧
      (getI s1 cloneSrcSt.heap.length).i_bmapdirty = true ∧
      (getI s1 cloneSrcSt.heap.length).i_dirty = true ∧
      (∀ j, j < cloneSrcSt.heap.length → getI s1 j = getI cloneSrcSt j) ∧
      getI s1 0 = getI cloneSrcSt 0 :=
  C4_clone_shares_block_map cloneSrcSt 0 0 9 7 (by decide) (by decide)
    (by decide) (by decide) (by decide) (by decide) (by decide) (by decide)

/-- `setFs` preserves the superblock inode count. -/
lemma setFs_sb (s : St) (f : Nat) (fs : Fs) :
    (setFs s f fs).sb_inodes = s.sb_inodes := rfl

/-- Changing the clone counter preserves the superblock inode count. -/
lemma gfsClones_sb (s : St) (c : Nat) :
    ({ s with gfs_clones := c } : St).sb_inodes = s.sb_inodes := rfl

/-- Changing the clone counter does not change the layer table. -/
lemma gfsClones_getFs (s : St) (c f : Nat) :
    getFs { s with gfs_clones := c } f = getFs s f := rfl

/-- `lc_newInode` preserves the layer count. -/
lemma newInodeSt_layers_len (s : St) (f : Nat) :
    (newInodeSt s f).layers.length = s.layers.length := by
  unfold newInodeSt lc_newInode setFs
  simp

/-- `lc_addInode` preserves the layer count. -/
lemma addInode_layers_len (s : St) (f iid : Nat) :
    (lc_addInode s f iid).layers.length = s.layers.length := by
  unfold lc_addInode setI setFs
  simp

/-- `setI` preserves the layer count. -/
lemma setI_layers_len (s : St) (iid : Nat) (v : Inode) :
    (setI s iid v).layers.length = s.layers.length := rfl

/-- Reading back an in-range `setFs`. -/
lemma getFs_setFs_self (s : St) (f : Nat) (fs : Fs)
    (h : f < s.layers.length) : getFs (setFs s f fs) f = fs :=
  listGetD_set_self _ _ _ _ h

/-- `lc_addInode` preserves the target layer's resident count. -/
lemma getFs_addInode_icount (s : St) (f iid : Nat)
    (h : f < s.layers.length) :
    (getFs (lc_addInode s f iid) f).fs_icount = (getFs s f).fs_icount := by
  unfold lc_addInode
  rw [getFs_setI, getFs_setFs_self _ _ _ h]

/-- `lc_rootInit` bumps the superblock inode count and the layer's
resident count by exactly one each. -/
lemma rootInit_counters (s : St) (f root tv : Nat)
    (h : f < s.layers.length) :
    (lc_rootInit s f root tv).sb_inodes = (s.sb_inodes + 1) % U64 ∧
    (getFs (lc_rootInit s f root tv) f).fs_icount
      = ((getFs s f).fs_icount + 1) % U64 := by
  have h1 : f < (setI (newInodeSt s f) s.heap.length
      (lc_updateInodeTimes { getI (newInodeSt s f) s.heap.length with
        i_stat := { (getI (newInodeSt s f) s.heap.length).i_stat with
          st_ino := root, st_mode := S_IFDIR + 0o755, st_nlink := 2,
          st_blksize := LC_BLOCK_SIZE }, i_parent := root,
        i_fs := f } tv true true true)).layers.length := by
    rw [setI_layers_len, newInodeSt_layers_len]
    exact h
  constructor
  · simp only [lc_rootInit, lc_newInode_eq, setI_sb, setFs_sb, addInode_sb,
      newInodeSt_sb]
  · simp only [lc_rootInit, lc_newInode_eq, getFs_setI]
    rw [getFs_setFs_self, getFs_addInode_icount, getFs_setI,
      getFs_newInodeSt s f h]
    · rw [setI_layers_len, newInodeSt_layers_len]
      exact h
    · rw [addInode_layers_len, setI_layers_len, newInodeSt_layers_len]
      exact h

/-- `lc_inodeInit` bumps the superblock inode count and the layer's
resident count by exactly one each. -/
lemma inodeInit_counters (s : St) (f mode uid gid rdev par tv : Nat)
    (target : Option (List Nat)) (h : f < s.layers.length) :
    (lc_inodeInit s f mode uid gid rdev par target tv).1.sb_inodes
      = (s.sb_inodes + 1) % U64 ∧
    (getFs (lc_inodeInit s f mode uid gid rdev par target tv).1 f).fs_icount
      = ((getFs s f).fs_icount + 1) % U64 := by
  constructor
  · simp only [lc_inodeInit, lc_inodeAlloc, lc_newInode_eq, addInode_sb,
      setI_sb, newInodeSt_sb]
  · simp only [lc_inodeInit, lc_inodeAlloc, lc_newInode_eq]
    rw [getFs_addInode_icount, getFs_setI, getFs_newInodeSt]
    · rfl
    · exact h
    · rw [setI_layers_len, newInodeSt_layers_len]
      exact h

/-- A successful `lc_cloneInode` bumps the superblock inode count and
the child layer's resident count by exactly one each. -/
lemma cloneInode_counters (s : St) (f pid ino : Nat) (s4 : St) (cid : Nat)
    (h : f < s.layers.length)
    (hclone : lc_cloneInode s f pid ino = some (s4, cid)) :
    s4.sb_inodes = (s.sb_inodes + 1) % U64 ∧
    (getFs s4 f).fs_icount = ((getFs s f).fs_icount + 1) % U64 := by
  simp only [lc_cloneInode, lc_newInode_eq] at hclone
  split at hclone
  · exact absurd hclone (by simp)
  · simp only [Option.some.injEq, Prod.mk.injEq] at hclone
    obtain ⟨h4, hcid⟩ := hclone
    subst h4
    constructor
    · simp only [gfsClones_sb, setI_sb, addInode_sb, newInodeSt_sb]
    · rw [gfsClones_getFs, getFs_setI, getFs_addInode_icount, getFs_setI,
        getFs_newInodeSt s f h]
      rw [setI_layers_len, newInodeSt_layers_len]
      exact h

/-- C9: every inode allocation path — `lc_rootInit`, `lc_inodeInit` and
`lc_cloneInode` — increments both the global superblock inode count
`sb_inodes` and the layer's resident counter `fs_icount` by exactly one;
in particular a clone of an existing inode into a child layer bumps the
global count even though it denotes the same logical object. -/
theorem C9_alloc_paths_bump_counters
    (s1 : St) (f1 root tv1 : Nat)
    (s2 : St) (f2 mode uid gid rdev par tv2 : Nat)
    (target : Option (List Nat))
    (s3 : St) (f3 pid ino3 : Nat) (s4 : St) (cid : Nat)
    (hf1 : f1 < s1.layers.length)
    (hf2 : f2 < s2.layers.length)
    (hf3 : f3 < s3.layers.length)
    (hclone : lc_cloneInode s3 f3 pid ino3 = some (s4, cid)) :
    (lc_rootInit s1 f1 root tv1).sb_inodes = (s1.sb_inodes + 1) % U64 ∧
    (getFs (lc_rootInit s1 f1 root tv1) f1).fs_icount
      = ((getFs s1 f1).fs_icount + 1) % U64 ∧
    (lc_inodeInit s2 f2 mode uid gid rdev par target tv2).1.sb_inodes
      = (s2.sb_inodes + 1) % U64 ∧
    (getFs (lc_inodeInit s2 f2 mode uid gid rdev par target tv2).1 f2).fs_icount
      = ((getFs s2 f2).fs_icount + 1) % U64 ∧
    s4.sb_inodes = (s3.sb_inodes + 1) % U64 ∧
    (getFs s4 f3).fs_icount = ((getFs s3 f3).fs_icount + 1) % U64 := by
  obtain ⟨hr1, hr2⟩ := rootInit_counters s1 f1 root tv1 hf1
  obtain ⟨hi1, hi2⟩ := inodeInit_counters s2 f2 mode uid gid rdev par tv2
    target hf2
  obtain ⟨hc1, hc2⟩ := cloneInode_counters s3 f3 pid ino3 s4 cid hf3 hclone
  exact ⟨hr1, hr2, hi1, hi2, hc1, hc2⟩

/-- C9 witness: the three allocation paths on concrete states. -/
theorem C9_alloc_paths_bump_counters_witness :
    (lc_rootInit cloneSrcSt 0 2 77).sb_inodes = (cloneSrcSt.sb_inodes + 1) % U64 ∧
    (getFs (lc_rootInit cloneSrcSt 0 2 77) 0).fs_icount
      = ((getFs cloneSrcSt 0).fs_icount + 1) % U64 ∧
    (lc_inodeInit cloneSrcSt 0 0x81A4 0 0 0 2 none 77).1.sb_inodes
      = (cloneSrcSt.sb_inodes + 1) % U64 ∧
    (getFs (lc_inodeInit cloneSrcSt 0 0x81A4 0 0 0 2 none 77).1 0).fs_icount
      = ((getFs cloneSrcSt 0).fs_icount + 1) % U64 ∧
    ((lc_cloneInode cloneSrcSt 0 0 9).getD (cloneSrcSt, 0)).1.sb_inodes
      = (cloneSrcSt.sb_inodes + 1) % U64 ∧
    (getFs ((lc_cloneInode cloneSrcSt 0 0 9).getD (cloneSrcSt, 0)).1 0).fs_icount
      = ((getFs cloneSrcSt 0).fs_icount + 1) % U64 := by
  obtain ⟨h1, h2, h3, h4, h5, h6⟩ := C9_alloc_paths_bump_counters
    cloneSrcSt 0 2 77 cloneSrcSt 0 0x81A4 0 0 0 2 77 none cloneSrcSt 0 0 9
    ((lc_cloneInode cloneSrcSt 0 0 9).getD (cloneSrcSt, 0)).1
    ((lc_cloneInode cloneSrcSt 0 0 9).getD (cloneSrcSt, 0)).2
    (by decide) (by decide) (by decide) (by decide)
  exact ⟨h1, h2, h3, h4, h5, h6⟩

end Lookup

/-- One on-disk inode-block record (array of child block addresses plus
a `next` pointer). -/
structure IBlockRec where
  ib_blks : List Nat
  ib_next : Nat
deriving DecidableEq

namespace Flush

/-!
Embedding of the dirty-inode flusher of `inode.c`:
`lc_flushInodePages`, `lc_flushInode`, `lc_syncInodes`,
`lc_invalidateInodePages`.

The flusher operates on one layer; `FSt` carries exactly the `struct fs`
fields the flusher touches, plus an oracle list `alloc` supplying the
successive results of the external block allocator.  Calls out of the
module (variant flushers, extent frees, page-cluster writes) are
recorded in an event trace `FEv`; the fatal assertion on a removed
inode's extent length is modelled by an `Option` result. -/

/-- A data page holding one serialized inode: the block it will be
written to, the serialized `dinode` (with the tombstone stamp applied),
the inline symlink target, and the `p_dvalid` mark. -/
structure Page where
  p_block : Nat
  p_dinode : Dinode
  p_target : Option (List Nat)
  p_dvalid : Bool
deriving DecidableEq

/-- Events of the flusher: calls out of the module in program order. -/
inductive FEv where
  | xattrFlush
  | bmapFlush
  | dirFlush
  | freeExtentList (xattr : Bool)
  | newIBlock
  | allocExact (count start : Nat)
  | stageInode (p : Page)
  | cluster (pages : List Page) (count : Nat)
  | flushIBlocks
  | releasePages (pages : List Page)
deriving DecidableEq

/-- The per-layer flush state (`struct fs` fields used by the flusher).
`fs_inodePages` is the staging list, most recently prepended page
first. -/
structure FSt where
  fs_inodeBlocks : Option IBlockRec
  fs_inodeIndex : Nat
  fs_blockInodes : Nat
  fs_blockInodesCount : Nat
  fs_inodePages : List Page
  fs_inodePagesCount : Nat
  fs_iwrite : Nat
  fs_removed : Bool
  alloc : List Nat
deriving DecidableEq

/-- Modelled from the spec: `lc_xattrFlush` (external xattr module)
writes the xattr blocks and clears the `xattrdirty` flag. -/
def lc_xattrFlush (i : Inode) : Inode := { i with i_xattrdirty := false }

/-- Modelled from the spec: `lc_bmapFlush` (external block-map module)
writes the block map and clears the `bmapdirty` flag. -/
def lc_bmapFlush (i : Inode) : Inode := { i with i_bmapdirty := false }

/-- Modelled from the spec: `lc_dirFlush` (external directory module)
writes the directory and clears the `dirdirty` flag. -/
def lc_dirFlush (i : Inode) : Inode := { i with i_dirdirty := false }

/-- Modelled from the spec: `lc_newInodeBlock` (external indirect-chain
helper) opens a fresh inode-block record as the layer's current record
and resets the per-record index. -/
def lc_newInodeBlock (fs : FSt) : FSt :=
  { fs with
    fs_inodeBlocks := some { ib_blks := List.replicate LC_IBLOCK_MAX 0,
                             ib_next := LC_INVALID_BLOCK },
    fs_inodeIndex := 0 }

/-- Modelled from the spec: `lc_blockAllocExact` (external block
allocator) returns the first block of a fresh contiguous metadata run;
successive results are supplied by the `alloc` oracle list. -/
def lc_blockAllocExact (fs : FSt) (count : Nat) : FSt × Nat :=
  match fs.alloc with
  | [] => (fs, 0)
  | b :: rest => ({ fs with alloc := rest }, b)

/-- `lc_flushInodePages`: hand the staging list to the external page
flusher as one cluster and clear it. -/
def lc_flushInodePages (fs : FSt) : FSt × List FEv :=
  ({ fs with fs_inodePages := [], fs_inodePagesCount := 0 },
   [FEv.cluster fs.fs_inodePages fs.fs_inodePagesCount])

/-- `lc_invalidateInodePages`: release the staging list without
writing. -/
def lc_invalidateInodePages (fs : FSt) : FSt × List FEv :=
  if fs.fs_inodePagesCount ≠ 0 then
    ({ fs with fs_inodePages := [], fs_inodePagesCount := 0 },
     [FEv.releasePages fs.fs_inodePages])
  else (fs, [])

/-- The variant-flush prologue of `lc_flushInode`: run the xattr, block
map and directory flushers for whichever dirty flags are set. -/
def flushVariants (i : Inode) : Inode × List FEv :=
  let a := if i.i_xattrdirty then (lc_xattrFlush i, [FEv.xattrFlush])
           else (i, [])
  let b := if a.1.i_bmapdirty then (lc_bmapFlush a.1, a.2 ++ [FEv.bmapFlush])
           else a
  if b.1.i_dirdirty then (lc_dirFlush b.1, b.2 ++ [FEv.dirFlush]) else b

/-- The block-assignment section of `lc_flushInode`: when the inode has
never been flushed, open a new inode-block record if the current one is
absent or full, reserve a fresh contiguous run when the previous one is
exhausted, consume the next block of the run and record it in the
current inode-block record. -/
def assignInodeBlock (fs : FSt) (i : Inode) : FSt × Inode × List FEv :=
  if i.i_block = LC_INVALID_BLOCK then
    let a :=
      if fs.fs_inodeBlocks = none ∨ fs.fs_inodeIndex ≥ LC_IBLOCK_MAX then
        (lc_newInodeBlock fs, [FEv.newIBlock])
      else (fs, [])
    let b :=
      if a.1.fs_blockInodesCount = 0 then
        let fsr := { a.1 with fs_blockInodesCount := LC_INODE_CLUSTER_SIZE }
        let c := lc_blockAllocExact fsr LC_INODE_CLUSTER_SIZE
        ({ c.1 with fs_blockInodes := c.2 },
         a.2 ++ [FEv.allocExact LC_INODE_CLUSTER_SIZE c.2])
      else a
    let i1 := { i with i_block := b.1.fs_blockInodes }
    let fs3 :=
      { b.1 with
        fs_blockInodes := b.1.fs_blockInodes + 1,
        fs_blockInodesCount := b.1.fs_blockInodesCount - 1,
        fs_inodeBlocks :=
          match b.1.fs_inodeBlocks with
          | some rec =>
            some { rec with
                   ib_blks := rec.ib_blks.set b.1.fs_inodeIndex i1.i_block }
          | none => none,
        fs_inodeIndex := b.1.fs_inodeIndex + 1 }
    (fs3, i1, b.2)
  else (fs, i, [])

/-- The data page built for an inode record: the serialized `dinode`
with mode stamped to 0 for a removed inode, the inline symlink target
appended for symlinks, and `p_dvalid` set. -/
def flushPageFor (i : Inode) : Page :=
  let d := i.dinode
  let d1 :=
    if i.i_removed then { d with di_stat := { d.di_stat with st_mode := 0 } }
    else d
  { p_block := i.i_block, p_dinode := d1,
    p_target := if S_ISLNK i.i_stat.st_mode then i.i_target else none,
    p_dvalid := true }

/-- The clustering section of `lc_flushInode`: if the staging list is
non-empty and the new page's block is not the immediate successor of
the staging head's block, flush the staged list first; prepend the page;
flush when the staging list reaches `LC_CLUSTER_SIZE`. -/
def stagePage (fs : FSt) (p : Page) : FSt × List FEv :=
  let a :=
    match fs.fs_inodePages with
    | [] => (fs, ([] : List FEv))
    | hd :: _ =>
      if p.p_block ≠ hd.p_block + 1 then lc_flushInodePages fs
      else (fs, [])
  let fs2 := { a.1 with fs_inodePages := p :: a.1.fs_inodePages,
                        fs_inodePagesCount := a.1.fs_inodePagesCount + 1 }
  if fs2.fs_inodePagesCount ≥ LC_CLUSTER_SIZE then
    let c := lc_flushInodePages fs2
    (c.1, a.2 ++ [FEv.stageInode p] ++ c.2)
  else (fs2, a.2 ++ [FEv.stageInode p])

/-- The field updates of the `i_removed` branch of `lc_flushInode`:
both metadata extent lists are freed and reset together with their
blocks. -/
def clearRemovedMeta (i : Inode) : Inode :=
  { i with i_bmapDirExtents := none, i_bmapDirBlock := LC_INVALID_BLOCK,
           i_xattrExtents := none, i_xattrBlock := LC_INVALID_BLOCK }

/-- `lc_flushInode`: flush dirty variants, then write the inode record
itself if it is dirty — freeing metadata extents and dropping or
tombstoning removed inodes — and return 1 iff a record write was
scheduled.  `none` models the fatal `assert(i_extentLength == 0)` for a
removed inode. -/
def lc_flushInode (fs : FSt) (i : Inode) :
    Option (FSt × Inode × Nat × List FEv) :=
  let v := flushVariants i
  let i3 := v.1
  if i3.i_dirty then
    if i3.i_removed ∧ i3.i_extentLength ≠ 0 then none
    else
      let w :=
        if i3.i_removed then
          (clearRemovedMeta i3,
           v.2 ++ [FEv.freeExtentList false, FEv.freeExtentList true])
        else (i3, v.2)
      let i4 := w.1
      if ¬i4.i_removed ∨ i4.i_block ≠ LC_INVALID_BLOCK then
        let ab := assignInodeBlock fs i4
        let p := flushPageFor ab.2.1
        let st := stagePage ab.1 p
        some (st.1, { ab.2.1 with i_dirty := false }, 1,
              w.2 ++ ab.2.2 ++ st.2)
      else
        some (fs, { i4 with i_dirty := false }, 0, w.2)
  else
    some (fs, i3, 0, v.2)

/-- Modelled from the spec: `lc_inodeDirty` (defined outside the
repository slice) holds when any of the inode's dirty flags is set. -/
def lc_inodeDirty (i : Inode) : Bool :=
  i.i_dirty || i.i_bmapdirty || i.i_dirdirty || i.i_xattrdirty

/-- The bucket walk of `lc_syncInodes` over the resident inodes,
aborting at the next inode boundary once the layer is marked removed.
Returns the final state, the updated inodes, the count of records
written and the event trace. -/
def syncLoop (fs : FSt) : List Inode →
    Option (FSt × List Inode × Nat × List FEv)
  | [] => some (fs, [], 0, [])
  | i :: rest =>
    if fs.fs_removed then some (fs, i :: rest, 0, [])
    else if lc_inodeDirty i then
      match lc_flushInode fs i with
      | none => none
      | some (fs1, i1, r, evs) =>
        match syncLoop fs1 rest with
        | none => none
        | some (fs2, rest1, c, evs2) =>
          some (fs2, i1 :: rest1, r + c, evs ++ evs2)
    else
      match syncLoop fs rest with
      | none => none
      | some (fs2, rest1, c, evs2) => some (fs2, i :: rest1, c, evs2)

/-- `lc_syncInodes`: flush every dirty resident inode, flush the
residual staging list, commit the indirect chain (external
`lc_flushInodeBlocks`, recorded as an event), and publish the count of
written inodes. -/
def lc_syncInodes (fs : FSt) (inodes : List Inode) :
    Option (FSt × List Inode × Nat × List FEv) :=
  match syncLoop fs inodes with
  | none => none
  | some (fs1, is1, count, evs) =>
    let a :=
      if fs1.fs_inodePagesCount ≠ 0 ∧ fs1.fs_removed = false then
        lc_flushInodePages fs1
      else (fs1, [])
    let evs3 := if fs1.fs_removed = false then [FEv.flushIBlocks] else []
    let fs3 :=
      if count ≠ 0 then { a.1 with fs_iwrite := (a.1.fs_iwrite + count) % U64 }
      else a.1
    some (fs3, is1, count, evs ++ a.2 ++ evs3)

/-- The variant prologue emits only variant-flusher events. -/
lemma flushVariants_evs (i : Inode) :
    ∀ ev ∈ (flushVariants i).2,
      ev = FEv.xattrFlush ∨ ev = FEv.bmapFlush ∨ ev = FEv.dirFlush := by
  intro ev hev
  by_cases hx : i.i_xattrdirty <;> by_cases hb : i.i_bmapdirty <;>
    by_cases hd : i.i_dirdirty <;>
    simp [flushVariants, lc_xattrFlush, lc_bmapFlush, lc_dirFlush,
      hx, hb, hd] at hev <;> tauto

/-- The variant prologue touches only the three variant dirty flags. -/
lemma flushVariants_fields (i : Inode) :
    (flushVariants i).1.i_dirty = i.i_dirty ∧
    (flushVariants i).1.i_removed = i.i_removed ∧
    (flushVariants i).1.i_block = i.i_block ∧
    (flushVariants i).1.i_extentLength = i.i_extentLength ∧
    (flushVariants i).1.i_stat = i.i_stat ∧
    (flushVariants i).1.i_target = i.i_target := by
  by_cases hx : i.i_xattrdirty <;> by_cases hb : i.i_bmapdirty <;>
    by_cases hd : i.i_dirdirty <;>
    simp [flushVariants, lc_xattrFlush, lc_bmapFlush, lc_dirFlush,
      hx, hb, hd]

/-- The staged page is always announced in the staging trace. -/
lemma stagePage_mem (fs : FSt) (p : Page) :
    FEv.stageInode p ∈ (stagePage fs p).2 := by
  rcases hl : fs.fs_inodePages with _ | ⟨hd, tl⟩ <;>
    simp only [stagePage, hl, lc_flushInodePages] <;> split <;> simp <;>
    split <;> simp

/-- C3: flushing a dirty removed inode never writes a record when
`i_block` is the invalid sentinel (returning 0 with the dirty flag
cleared and the layer state untouched), and otherwise schedules exactly
one record write carrying a serialized mode of 0 (a tombstone),
returning 1 with the dirty flag cleared. -/
theorem C3_removed_inode_flush (fs : FSt) (i : Inode)
    (hd : i.i_dirty = true) (hr : i.i_removed = true)
    (he : i.i_extentLength = 0) :
    (i.i_block = LC_INVALID_BLOCK →
      ∃ i1 evs, lc_flushInode fs i = some (fs, i1, 0, evs) ∧
        i1.i_dirty = false ∧
        ∀ ev ∈ evs, (∀ p, ev ≠ FEv.stageInode p) ∧
          ∀ l c, ev ≠ FEv.cluster l c) ∧
    (i.i_block ≠ LC_INVALID_BLOCK →
      ∃ fs2 i1 evs p, lc_flushInode fs i = some (fs2, i1, 1, evs) ∧
        i1.i_dirty = false ∧ FEv.stageInode p ∈ evs ∧
        p.p_block = i.i_block ∧ p.p_dinode.di_stat.st_mode = 0) := by
  obtain ⟨f1, f2, f3, f4, f5, f6⟩ := flushVariants_fields i
  have hve := flushVariants_evs i
  rcases hfv : flushVariants i with ⟨i3, vevs⟩
  rw [hfv] at f1 f2 f3 f4 f5 f6 hve
  simp only at f1 f2 f3 f4 f5 f6 hve
  constructor
  · intro hbi
    have heq : lc_flushInode fs i =
        some (fs, { clearRemovedMeta i3 with i_dirty := false }, 0,
          vevs ++ [FEv.freeExtentList false, FEv.freeExtentList true]) := by
      simp [lc_flushInode, hfv, f1, f2, f3, f4, hd, hr, he, hbi,
        clearRemovedMeta]
    refine ⟨_, _, heq, by simp, ?_⟩
    intro ev hev
    simp only [List.mem_append] at hev
    rcases hev with hev | hev
    · rcases hve ev hev with h | h | h <;> subst h <;>
        exact ⟨fun p => by simp, fun l c => by simp⟩
    · simp only [List.mem_cons, List.not_mem_nil, or_false] at hev
      rcases hev with h | h <;> subst h <;>
        exact ⟨fun p => by simp, fun l c => by simp⟩
  · intro hbi
    have heq : lc_flushInode fs i =
        some ((stagePage fs (flushPageFor (clearRemovedMeta i3))).1,
          { clearRemovedMeta i3 with i_dirty := false }, 1,
          vevs ++ [FEv.freeExtentList false, FEv.freeExtentList true] ++
            (stagePage fs (flushPageFor (clearRemovedMeta i3))).2) := by
      simp [lc_flushInode, hfv, f1, f2, f3, f4, hd, hr, he, hbi,
        assignInodeBlock, clearRemovedMeta]
    refine ⟨_, _, _, flushPageFor (clearRemovedMeta i3), heq, by simp,
      ?_, ?_, ?_⟩
    · simp only [List.mem_append]
      right
      exact stagePage_mem _ _
    · simp [flushPageFor, clearRemovedMeta, f3]
    · simp [flushPageFor, clearRemovedMeta, f2, hr, Inode.dinode]

/-- A flush state with empty staging list and no reserved blocks. -/
def emptyFlushFs : FSt :=
  { fs_inodeBlocks := none, fs_inodeIndex := 0, fs_blockInodes := 0,
    fs_blockInodesCount := 0, fs_inodePages := [], fs_inodePagesCount := 0,
    fs_iwrite := 0, fs_removed := false, alloc := [] }

/-- A dirty removed inode that never reached disk (`i_block` invalid). -/
def removedFreshInode : Inode :=
  { emptyInode with i_dirty := true, i_removed := true }

/-- A dirty removed inode whose record sits on disk block 300. -/
def removedDiskInode : Inode :=
  { emptyInode with i_dirty := true, i_removed := true, i_block := 300 }

/-- C3 witness: the two concrete removed inodes exercise both branches:
the never-flushed one is dropped (return 0), the on-disk one is
tombstoned (return 1, serialized mode 0). -/
theorem C3_removed_inode_flush_witness :
    (removedFreshInode.i_block = LC_INVALID_BLOCK ∧
      ∃ i1 evs, lc_flushInode emptyFlushFs removedFreshInode =
          some (emptyFlushFs, i1, 0, evs) ∧ i1.i_dirty = false ∧
        ∀ ev ∈ evs, (∀ p, ev ≠ FEv.stageInode p) ∧
          ∀ l c, ev ≠ FEv.cluster l c) ∧
    (removedDiskInode.i_block ≠ LC_INVALID_BLOCK ∧
      ∃ fs2 i1 evs p, lc_flushInode emptyFlushFs removedDiskInode =
          some (fs2, i1, 1, evs) ∧ i1.i_dirty = false ∧
        FEv.stageInode p ∈ evs ∧ p.p_block = removedDiskInode.i_block ∧
        p.p_dinode.di_stat.st_mode = 0) :=
  ⟨⟨by decide,
    (C3_removed_inode_flush emptyFlushFs removedFreshInode (by decide)
      (by decide) (by decide)).1 (by decide)⟩,
   ⟨by decide,
    (C3_removed_inode_flush emptyFlushFs removedDiskInode (by decide)
      (by decide) (by decide)).2 (by decide)⟩⟩

/-- Contiguity of the staging list: block numbers descend by exactly one
from the head page to the tail page. -/
def contigB : List Page → Bool
  | [] => true
  | [_] => true
  | a :: b :: t => (a.p_block == b.p_block + 1) && contigB (b :: t)

/-- Extending a contiguous staging list by the successor block of its
head keeps it contiguous. -/
lemma contigB_cons (p hd : Page) (tl : List Page)
    (h : p.p_block = hd.p_block + 1) (h2 : contigB (hd :: tl) = true) :
    contigB (p :: hd :: tl) = true := by
  simp [contigB, h, h2]

/-- `assignInodeBlock` does not touch the staging list. -/
lemma assignInodeBlock_pages (fs : FSt) (i : Inode) :
    (assignInodeBlock fs i).1.fs_inodePages = fs.fs_inodePages ∧
    (assignInodeBlock fs i).1.fs_inodePagesCount = fs.fs_inodePagesCount := by
  by_cases h1 : i.i_block = LC_INVALID_BLOCK
  · by_cases h2 : fs.fs_inodeBlocks = none ∨ fs.fs_inodeIndex ≥ LC_IBLOCK_MAX <;>
      by_cases h3 : fs.fs_blockInodesCount = 0 <;>
      rcases ha : fs.alloc with _ | ⟨b, rest⟩ <;>
      simp [assignInodeBlock, lc_newInodeBlock, lc_blockAllocExact,
        h1, h2, h3, ha]
  · simp [assignInodeBlock, h1]

/-- `assignInodeBlock` emits only chain-open and allocator events. -/
lemma assignInodeBlock_evs (fs : FSt) (i : Inode) :
    ∀ ev ∈ (assignInodeBlock fs i).2.2,
      ev = FEv.newIBlock ∨ ∃ c s, ev = FEv.allocExact c s := by
  intro ev hev
  by_cases h1 : i.i_block = LC_INVALID_BLOCK
  · by_cases h2 : fs.fs_inodeBlocks = none ∨ fs.fs_inodeIndex ≥ LC_IBLOCK_MAX <;>
      by_cases h3 : fs.fs_blockInodesCount = 0 <;>
      rcases ha : fs.alloc with _ | ⟨b, rest⟩ <;>
      simp [assignInodeBlock, lc_newInodeBlock, lc_blockAllocExact,
        h1, h2, h3, ha] at hev <;>
      first
        | exact Or.inl hev
        | exact Or.inr ⟨_, _, hev⟩
        | (rcases hev with h | h <;>
            first | exact Or.inl h | exact Or.inr ⟨_, _, h⟩)
  · simp [assignInodeBlock, h1] at hev

/-- `stagePage` emits only staging and cluster events. -/
lemma stagePage_evs (fs : FSt) (p : Page) :
    ∀ ev ∈ (stagePage fs p).2,
      (∃ q, ev = FEv.stageInode q) ∨ ∃ l c, ev = FEv.cluster l c := by
  intro ev hev
  rcases hl : fs.fs_inodePages with _ | ⟨hd, tl⟩
  · simp only [stagePage, hl, lc_flushInodePages] at hev
    split at hev <;> simp at hev <;> tauto
  · simp only [stagePage, hl, lc_flushInodePages] at hev
    split at hev <;> split at hev <;> simp at hev <;> tauto

/-- `stagePage` keeps the staging list contiguous with a correct count,
and every cluster it emits is a contiguous list with a correct count. -/
lemma stagePage_good (fs : FSt) (p : Page)
    (h1 : contigB fs.fs_inodePages = true)
    (h2 : fs.fs_inodePagesCount = fs.fs_inodePages.length) :
    contigB (stagePage fs p).1.fs_inodePages = true ∧
    (stagePage fs p).1.fs_inodePagesCount
      = (stagePage fs p).1.fs_inodePages.length ∧
    ∀ l c, FEv.cluster l c ∈ (stagePage fs p).2 →
      contigB l = true ∧ c = l.length := by
  rcases hl : fs.fs_inodePages with _ | ⟨hd, tl⟩
  · have hc : fs.fs_inodePagesCount = 0 := by rw [h2, hl]; rfl
    have hsp : stagePage fs p =
        ({ fs with fs_inodePages := [p], fs_inodePagesCount := 1 },
         [FEv.stageInode p]) := by
      simp [stagePage, hl, hc, lc_flushInodePages, LC_CLUSTER_SIZE]
    rw [hsp]
    refine ⟨rfl, rfl, ?_⟩
    intro l c hmem
    simp at hmem
  · by_cases hg : p.p_block = hd.p_block + 1
    · have h1x : contigB (hd :: tl) = true := by rw [← hl]; exact h1
      have hcont : contigB (p :: hd :: tl) = true :=
        contigB_cons p hd tl hg h1x
      by_cases hth : fs.fs_inodePagesCount + 1 ≥ LC_CLUSTER_SIZE
      · have hsp : stagePage fs p =
            ({ fs with fs_inodePages := [], fs_inodePagesCount := 0 },
             [FEv.stageInode p,
              FEv.cluster (p :: hd :: tl) (fs.fs_inodePagesCount + 1)]) := by
          simp [stagePage, hl, hg, hth, lc_flushInodePages]
        rw [hsp]
        refine ⟨rfl, rfl, ?_⟩
        intro l c hmem
        simp at hmem
        obtain ⟨hlv, hcv⟩ := hmem
        subst hlv
        subst hcv
        refine ⟨hcont, ?_⟩
        simp [h2, hl]
      · have hsp : stagePage fs p =
            ({ fs with
               fs_inodePages := p :: hd :: tl,
               fs_inodePagesCount := fs.fs_inodePagesCount + 1 },
             [FEv.stageInode p]) := by
          simp [stagePage, hl, hg, hth, lc_flushInodePages]
        rw [hsp]
        refine ⟨hcont, by simp [h2, hl], ?_⟩
        intro l c hmem
        simp at hmem
    · have hth : ¬(1 ≥ LC_CLUSTER_SIZE) := by decide
      have hsp : stagePage fs p =
          ({ fs with fs_inodePages := [p], fs_inodePagesCount := 1 },
           [FEv.cluster (hd :: tl) fs.fs_inodePagesCount,
            FEv.stageInode p]) := by
        simp [stagePage, hl, hg, lc_flushInodePages, LC_CLUSTER_SIZE]
      rw [hsp]
      refine ⟨rfl, rfl, ?_⟩
      intro l c hmem
      simp at hmem
      obtain ⟨hlv, hcv⟩ := hmem
      subst hlv
      subst hcv
      constructor
      · rw [← hl]
        exact h1
      · rw [h2, hl]

/-- Variant-flusher events are never cluster events. -/
lemma no_cluster_of_variant {vevs : List FEv}
    (hve : ∀ ev ∈ vevs, ev = FEv.xattrFlush ∨ ev = FEv.bmapFlush ∨
      ev = FEv.dirFlush) :
    ∀ l c, FEv.cluster l c ∉ vevs := by
  intro l c hmem
  rcases hve _ hmem with h | h | h <;> simp at h

/-- `lc_flushInode` preserves the staging invariant, and every cluster
it hands to the page flusher is contiguous with a correct count. -/
lemma flushInode_staging (fs : FSt) (i : Inode) (fs2 : FSt) (i1 : Inode)
    (r : Nat) (evs : List FEv)
    (hrun : lc_flushInode fs i = some (fs2, i1, r, evs))
    (h1 : contigB fs.fs_inodePages = true)
    (h2 : fs.fs_inodePagesCount = fs.fs_inodePages.length) :
    contigB fs2.fs_inodePages = true ∧
    fs2.fs_inodePagesCount = fs2.fs_inodePages.length ∧
    ∀ l c, FEv.cluster l c ∈ evs → contigB l = true ∧ c = l.length := by
  have hve := flushVariants_evs i
  rcases hfv : flushVariants i with ⟨i3, vevs⟩
  rw [hfv] at hve
  simp only at hve
  have hnc := no_cluster_of_variant hve
  by_cases hd3 : i3.i_dirty = true
  · by_cases hr3 : i3.i_removed = true
    · by_cases hx3 : i3.i_extentLength = 0
      · by_cases hb3 : i3.i_block = LC_INVALID_BLOCK
        · have heq : lc_flushInode fs i =
              some (fs, { clearRemovedMeta i3 with i_dirty := false }, 0,
                vevs ++ [FEv.freeExtentList false, FEv.freeExtentList true]) := by
            simp [lc_flushInode, hfv, hd3, hr3, hx3, hb3, clearRemovedMeta]
          rw [heq] at hrun
          simp only [Option.some.injEq, Prod.mk.injEq] at hrun
          obtain ⟨hfs, hi, hrr, hevs⟩ := hrun
          subst hfs
          subst hevs
          refine ⟨h1, h2, ?_⟩
          intro l c hmem
          simp only [List.mem_append] at hmem
          rcases hmem with hm | hm
          · exact absurd hm (hnc l c)
          · simp at hm
        · have hab : assignInodeBlock fs (clearRemovedMeta i3) =
              (fs, clearRemovedMeta i3, []) := by
            simp [assignInodeBlock, clearRemovedMeta, hb3]
          have heq : lc_flushInode fs i =
              some ((stagePage fs (flushPageFor (clearRemovedMeta i3))).1,
                { clearRemovedMeta i3 with i_dirty := false }, 1,
                vevs ++ [FEv.freeExtentList false, FEv.freeExtentList true] ++
                  (stagePage fs (flushPageFor (clearRemovedMeta i3))).2) := by
            simp [lc_flushInode, hfv, hd3, hr3, hx3, hb3, assignInodeBlock,
              clearRemovedMeta]
          rw [heq] at hrun
          simp only [Option.some.injEq, Prod.mk.injEq] at hrun
          obtain ⟨hfs, hi, hrr, hevs⟩ := hrun
          subst hfs
          subst hevs
          obtain ⟨g1, g2, g3⟩ :=
            stagePage_good fs (flushPageFor (clearRemovedMeta i3)) h1 h2
          refine ⟨g1, g2, ?_⟩
          intro l c hmem
          simp only [List.mem_append] at hmem
          rcases hmem with (hm | hm) | hm
          · exact absurd hm (hnc l c)
          · simp at hm
          · exact g3 l c hm
      · have heq : lc_flushInode fs i = none := by
          simp [lc_flushInode, hfv, hd3, hr3, hx3]
        rw [heq] at hrun
        exact absurd hrun (by simp)
    · have heq : lc_flushInode fs i =
          some ((stagePage (assignInodeBlock fs i3).1
              (flushPageFor (assignInodeBlock fs i3).2.1)).1,
            { (assignInodeBlock fs i3).2.1 with i_dirty := false }, 1,
            vevs ++ (assignInodeBlock fs i3).2.2 ++
              (stagePage (assignInodeBlock fs i3).1
                (flushPageFor (assignInodeBlock fs i3).2.1)).2) := by
        simp [lc_flushInode, hfv, hd3, hr3]
      rw [heq] at hrun
      simp only [Option.some.injEq, Prod.mk.injEq] at hrun
      obtain ⟨hfs, hi, hrr, hevs⟩ := hrun
      subst hfs
      subst hevs
      obtain ⟨p1, p2⟩ := assignInodeBlock_pages fs i3
      have h1a : contigB (assignInodeBlock fs i3).1.fs_inodePages = true := by
        rw [p1]; exact h1
      have h2a : (assignInodeBlock fs i3).1.fs_inodePagesCount
          = (assignInodeBlock fs i3).1.fs_inodePages.length := by
        rw [p1, p2]; exact h2
      obtain ⟨g1, g2, g3⟩ := stagePage_good (assignInodeBlock fs i3).1
        (flushPageFor (assignInodeBlock fs i3).2.1) h1a h2a
      refine ⟨g1, g2, ?_⟩
      intro l c hmem
      simp only [List.mem_append] at hmem
      rcases hmem with (hm | hm) | hm
      · exact absurd hm (hnc l c)
      · rcases assignInodeBlock_evs fs i3 _ hm with h | ⟨c2, s2, h⟩ <;>
          simp at h
      · exact g3 l c hm
  · have heq : lc_flushInode fs i = some (fs, i3, 0, vevs) := by
      simp [lc_flushInode, hfv, hd3]
    rw [heq] at hrun
    simp only [Option.some.injEq, Prod.mk.injEq] at hrun
    obtain ⟨hfs, hi, hrr, hevs⟩ := hrun
    subst hfs
    subst hevs
    exact ⟨h1, h2, fun l c hmem => absurd hmem (hnc l c)⟩

/-- The bucket walk of `lc_syncInodes` preserves the staging invariant,
and every cluster flushed along the way is contiguous with a correct
count. -/
lemma syncLoop_staging (inodes : List Inode) :
    ∀ (fs fs2 : FSt) (is1 : List Inode) (c : Nat) (evs : List FEv),
    syncLoop fs inodes = some (fs2, is1, c, evs) →
    contigB fs.fs_inodePages = true →
    fs.fs_inodePagesCount = fs.fs_inodePages.length →
    contigB fs2.fs_inodePages = true ∧
    fs2.fs_inodePagesCount = fs2.fs_inodePages.length ∧
    ∀ l c2, FEv.cluster l c2 ∈ evs → contigB l = true ∧ c2 = l.length := by
  induction inodes with
  | nil =>
    intro fs fs2 is1 c evs hrun h1 h2
    simp only [syncLoop, Option.some.injEq, Prod.mk.injEq] at hrun
    obtain ⟨hfs, hi, hc, hevs⟩ := hrun
    subst hfs
    subst hevs
    exact ⟨h1, h2, fun l c2 hmem => absurd hmem (by simp)⟩
  | cons i rest ih =>
    intro fs fs2 is1 c evs hrun h1 h2
    by_cases hrm : fs.fs_removed = true
    · simp only [syncLoop, hrm, if_true, Option.some.injEq,
        Prod.mk.injEq] at hrun
      obtain ⟨hfs, hi, hc, hevs⟩ := hrun
      subst hfs
      subst hevs
      exact ⟨h1, h2, fun l c2 hmem => absurd hmem (by simp)⟩
    · by_cases hdi : lc_inodeDirty i = true
      · rcases hfi : lc_flushInode fs i with _ | ⟨fs1, i1, r, evs1⟩
        · simp [syncLoop, hrm, hdi, hfi] at hrun
        · rcases hsl : syncLoop fs1 rest with _ | ⟨fs2x, rest1, cx, evs2⟩
          · simp [syncLoop, hrm, hdi, hfi, hsl] at hrun
          · simp only [syncLoop, hrm, hdi, hfi, hsl, Bool.false_eq_true,
              if_false, if_true, Option.some.injEq, Prod.mk.injEq] at hrun
            obtain ⟨hfs, hi, hc, hevs⟩ := hrun
            subst hfs
            subst hevs
            obtain ⟨f1, f2, f3⟩ :=
              flushInode_staging fs i fs1 i1 r evs1 hfi h1 h2
            obtain ⟨g1, g2, g3⟩ :=
              ih fs1 fs2x rest1 cx evs2 hsl f1 f2
            refine ⟨g1, g2, ?_⟩
            intro l c2 hmem
            simp only [List.mem_append] at hmem
            rcases hmem with hm | hm
            · exact f3 l c2 hm
            · exact g3 l c2 hm
      · rcases hsl : syncLoop fs rest with _ | ⟨fs2x, rest1, cx, evs2⟩
        · simp [syncLoop, hrm, hdi, hsl] at hrun
        · simp only [syncLoop, hrm, hdi, hsl, Bool.false_eq_true,
            if_false, Option.some.injEq, Prod.mk.injEq] at hrun
          obtain ⟨hfs, hi, hc, hevs⟩ := hrun
          subst hfs
          subst hevs
          exact ih fs fs2x rest1 cx evs2 hsl h1 h2

/-- The tail of a contiguous staging list sits `length - 1` blocks below
the head. -/
lemma contigB_last (t : List Page) :
    ∀ p : Page, contigB (p :: t) = true →
      (t.getLastD p).p_block + t.length = p.p_block := by
  induction t with
  | nil => intro p h; simp
  | cons b t ih =>
    intro p h
    simp only [contigB, Bool.and_eq_true, beq_iff_eq] at h
    obtain ⟨hpb, hrest⟩ := h
    have h2 := ih b (by simpa [contigB] using hrest)
    simp only [List.getLastD_cons, List.length_cons]
    omega

/-- A gap between the staged block and the staging head flushes the
staged list as its own cluster before the new page is staged. -/
lemma stagePage_gap (g : FSt) (q hd : Page) (tl : List Page)
    (hl : g.fs_inodePages = hd :: tl) (hg : q.p_block ≠ hd.p_block + 1) :
    stagePage g q =
      ({ g with fs_inodePages := [q], fs_inodePagesCount := 1 },
       [FEv.cluster (hd :: tl) g.fs_inodePagesCount, FEv.stageInode q]) := by
  simp [stagePage, hl, hg, lc_flushInodePages, LC_CLUSTER_SIZE]

/-- C5 (amended): in every `lc_syncInodes` run starting from a
contiguous staging list, each cluster handed to the page flusher is a
contiguous run of disk blocks descending by one from the head page, its
recorded count is the list length, and its tail page's block is
`head.block - (count - 1)` (stated additively); and staging a page whose
block is not the immediate successor of the staging-list head's block
first flushes the staged list as its own cluster. -/
theorem C5_cluster_contiguity (fs : FSt) (inodes : List Inode) (fs2 : FSt)
    (is1 : List Inode) (count : Nat) (evs : List FEv)
    (h1 : contigB fs.fs_inodePages = true)
    (h2 : fs.fs_inodePagesCount = fs.fs_inodePages.length)
    (hrun : lc_syncInodes fs inodes = some (fs2, is1, count, evs)) :
    (∀ l c, FEv.cluster l c ∈ evs → contigB l = true ∧ c = l.length ∧
      ∀ p t, l = p :: t → (t.getLastD p).p_block + t.length = p.p_block) ∧
    (∀ (g : FSt) (q hd : Page) (tl : List Page),
      g.fs_inodePages = hd :: tl → q.p_block ≠ hd.p_block + 1 →
      ∃ evtail, (stagePage g q).2 =
        FEv.cluster (hd :: tl) g.fs_inodePagesCount ::
          FEv.stageInode q :: evtail) := by
  constructor
  · rcases hsl : syncLoop fs inodes with _ | ⟨fs1, is1x, cx, evsx⟩
    · rw [lc_syncInodes, hsl] at hrun
      exact absurd hrun (by simp)
    · obtain ⟨g1, g2, g3⟩ := syncLoop_staging inodes fs fs1 is1x cx evsx
        hsl h1 h2
      rw [lc_syncInodes, hsl] at hrun
      simp only [Option.some.injEq, Prod.mk.injEq] at hrun
      obtain ⟨hfs, hi, hc, hevs⟩ := hrun
      subst hevs
      intro l c hmem
      have hgood : contigB l = true ∧ c = l.length := by
        simp only [List.mem_append] at hmem
        rcases hmem with (hm | hm) | hm
        · exact g3 l c hm
        · by_cases hc1 : fs1.fs_inodePagesCount = 0
          · simp [lc_flushInodePages, hc1] at hm
          · by_cases hc2 : fs1.fs_removed = true
            · simp [lc_flushInodePages, hc1, hc2] at hm
            · rw [Bool.not_eq_true] at hc2
              simp [lc_flushInodePages, hc1, hc2] at hm
              obtain ⟨hlv, hcv⟩ := hm
              subst hlv
              subst hcv
              exact ⟨g1, g2⟩
        · by_cases hrm2 : fs1.fs_removed = false <;> simp [hrm2] at hm
      refine ⟨hgood.1, hgood.2, ?_⟩
      intro p t hl2
      subst hl2
      exact contigB_last t p hgood.1
  · intro g q hd tl hl hg
    exact ⟨[], by rw [stagePage_gap g q hd tl hl hg]⟩

/-- A dirty, already-on-disk inode whose record lives at block `b`. -/
def dirtyInodeAt (b : Nat) : Inode :=
  { emptyInode with i_dirty := true, i_block := b }

/-- The concrete `lc_syncInodes` run flushing inodes at blocks 1000,
1001 and 2000: the first two coalesce, the third opens a new cluster. -/
def syncRun : FSt × List Inode × Nat × List FEv :=
  (lc_syncInodes emptyFlushFs
    [dirtyInodeAt 1000, dirtyInodeAt 1001, dirtyInodeAt 2000]).getD
    (emptyFlushFs, [], 0, [])

/-- C5 witness: the contiguity theorem applied to the concrete
three-inode sync run. -/
theorem C5_cluster_contiguity_witness :
    (∀ l c, FEv.cluster l c ∈ syncRun.2.2.2 → contigB l = true ∧
      c = l.length ∧
      ∀ p t, l = p :: t → (t.getLastD p).p_block + t.length = p.p_block) ∧
    (∀ (g : FSt) (q hd : Page) (tl : List Page),
      g.fs_inodePages = hd :: tl → q.p_block ≠ hd.p_block + 1 →
      ∃ evtail, (stagePage g q).2 =
        FEv.cluster (hd :: tl) g.fs_inodePagesCount ::
          FEv.stageInode q :: evtail) :=
  C5_cluster_contiguity emptyFlushFs
    [dirtyInodeAt 1000, dirtyInodeAt 1001, dirtyInodeAt 2000]
    syncRun.1 syncRun.2.1 syncRun.2.2.1 syncRun.2.2.2
    (by decide) (by decide) (by decide)

/-- C5 counterexample: the same concrete run hands the page flusher the
cluster `[page 1001, page 1000]` of count 2 — the staging list is
prepended, so its head holds the highest block and the tail page's
block is `head.block - (count - 1)`, not `head.block + count - 1` as
claimed (1000 ≠ 1001 + 2 - 1). -/
theorem C5_tail_block_counterexample :
    lc_syncInodes emptyFlushFs
      [dirtyInodeAt 1000, dirtyInodeAt 1001, dirtyInodeAt 2000]
      = some syncRun ∧
    FEv.cluster [flushPageFor (dirtyInodeAt 1001),
      flushPageFor (dirtyInodeAt 1000)] 2 ∈ syncRun.2.2.2 ∧
    (flushPageFor (dirtyInodeAt 1001)).p_block = 1001 ∧
    (flushPageFor (dirtyInodeAt 1000)).p_block = 1000 ∧
    (flushPageFor (dirtyInodeAt 1000)).p_block ≠
      (flushPageFor (dirtyInodeAt 1001)).p_block + 2 - 1 := by
  decide

/-- No `stageInode` event in the first list and no variant event in the
second forces every variant event to precede every `stageInode` event
in their concatenation. -/
lemma append_stage_order (l1 l2 : List FEv)
    (h1 : ∀ p, FEv.stageInode p ∉ l1)
    (h2 : FEv.xattrFlush ∉ l2) (h3 : FEv.bmapFlush ∉ l2)
    (h4 : FEv.dirFlush ∉ l2) :
    ∀ j k p, (l1 ++ l2).get? j = some (FEv.stageInode p) →
      ((l1 ++ l2).get? k = some FEv.xattrFlush ∨
       (l1 ++ l2).get? k = some FEv.bmapFlush ∨
       (l1 ++ l2).get? k = some FEv.dirFlush) → k < j := by
  intro j k p hj hk
  have hjge : l1.length ≤ j := by
    by_contra hlt
    push_neg at hlt
    rw [List.get?_append hlt] at hj
    exact h1 p (List.get?_mem hj)
  have hklt : k < l1.length := by
    by_contra hge
    push_neg at hge
    rw [List.get?_append_right hge] at hk
    rcases hk with h | h | h
    · exact h2 (List.get?_mem h)
    · exact h3 (List.get?_mem h)
    · exact h4 (List.get?_mem h)
  omega

/-- The trace of `lc_flushInode` is the variant-flush prologue followed
by a tail free of variant events, and the prologue stages nothing. -/
lemma flushInode_trace_decomp (fs : FSt) (i : Inode) (fs2 : FSt)
    (i1 : Inode) (r : Nat) (evs : List FEv)
    (hrun : lc_flushInode fs i = some (fs2, i1, r, evs)) :
    ∃ tail, evs = (flushVariants i).2 ++ tail ∧
      (∀ p, FEv.stageInode p ∉ (flushVariants i).2) ∧
      FEv.xattrFlush ∉ tail ∧ FEv.bmapFlush ∉ tail ∧ FEv.dirFlush ∉ tail := by
  have hve := flushVariants_evs i
  have hnostage : ∀ p, FEv.stageInode p ∉ (flushVariants i).2 := by
    intro p hmem
    rcases hve _ hmem with h | h | h <;> simp at h
  rcases hfv : flushVariants i with ⟨i3, vevs⟩
  rw [hfv] at hnostage
  simp only at hnostage
  have hstev := stagePage_evs
  by_cases hd3 : i3.i_dirty = true
  · by_cases hr3 : i3.i_removed = true
    · by_cases hx3 : i3.i_extentLength = 0
      · by_cases hb3 : i3.i_block = LC_INVALID_BLOCK
        · have heq : lc_flushInode fs i =
              some (fs, { clearRemovedMeta i3 with i_dirty := false }, 0,
                vevs ++ [FEv.freeExtentList false, FEv.freeExtentList true]) := by
            simp [lc_flushInode, hfv, hd3, hr3, hx3, hb3, clearRemovedMeta]
          rw [heq] at hrun
          simp only [Option.some.injEq, Prod.mk.injEq] at hrun
          obtain ⟨hfs, hi, hrr, hevs⟩ := hrun
          subst hevs
          exact ⟨_, rfl, hnostage, by simp, by simp, by simp⟩
        · have heq : lc_flushInode fs i =
              some ((stagePage fs (flushPageFor (clearRemovedMeta i3))).1,
                { clearRemovedMeta i3 with i_dirty := false }, 1,
                vevs ++ [FEv.freeExtentList false, FEv.freeExtentList true] ++
                  (stagePage fs (flushPageFor (clearRemovedMeta i3))).2) := by
            simp [lc_flushInode, hfv, hd3, hr3, hx3, hb3, assignInodeBlock,
              clearRemovedMeta]
          rw [heq] at hrun
          simp only [Option.some.injEq, Prod.mk.injEq] at hrun
          obtain ⟨hfs, hi, hrr, hevs⟩ := hrun
          subst hevs
          refine ⟨[FEv.freeExtentList false, FEv.freeExtentList true] ++
            (stagePage fs (flushPageFor (clearRemovedMeta i3))).2,
            by simp, hnostage, ?_, ?_, ?_⟩ <;>
          · intro hmem
            simp only [List.mem_append, List.mem_cons, List.not_mem_nil,
              or_false] at hmem
            rcases hmem with (h | h) | h <;>
              first
                | simp at h
                | (rcases stagePage_evs fs (flushPageFor (clearRemovedMeta i3))
                      _ h with ⟨q, hq⟩ | ⟨l2, c2, hq⟩ <;> simp at hq)
      · have heq : lc_flushInode fs i = none := by
          simp [lc_flushInode, hfv, hd3, hr3, hx3]
        rw [heq] at hrun
        exact absurd hrun (by simp)
    · have heq : lc_flushInode fs i =
          some ((stagePage (assignInodeBlock fs i3).1
              (flushPageFor (assignInodeBlock fs i3).2.1)).1,
            { (assignInodeBlock fs i3).2.1 with i_dirty := false }, 1,
            vevs ++ (assignInodeBlock fs i3).2.2 ++
              (stagePage (assignInodeBlock fs i3).1
                (flushPageFor (assignInodeBlock fs i3).2.1)).2) := by
        simp [lc_flushInode, hfv, hd3, hr3]
      rw [heq] at hrun
      simp only [Option.some.injEq, Prod.mk.injEq] at hrun
      obtain ⟨hfs, hi, hrr, hevs⟩ := hrun
      subst hevs
      refine ⟨(assignInodeBlock fs i3).2.2 ++
        (stagePage (assignInodeBlock fs i3).1
          (flushPageFor (assignInodeBlock fs i3).2.1)).2,
        by simp, hnostage, ?_, ?_, ?_⟩ <;>
      · intro hmem
        simp only [List.mem_append] at hmem
        rcases hmem with h | h
        · rcases assignInodeBlock_evs fs i3 _ h with hq | ⟨c2, s2, hq⟩ <;>
            simp at hq
        · rcases stagePage_evs (assignInodeBlock fs i3).1
              (flushPageFor (assignInodeBlock fs i3).2.1) _ h with
            ⟨q, hq⟩ | ⟨l2, c2, hq⟩ <;> simp at hq
  · have heq : lc_flushInode fs i = some (fs, i3, 0, vevs) := by
      simp [lc_flushInode, hfv, hd3]
    rw [heq] at hrun
    simp only [Option.some.injEq, Prod.mk.injEq] at hrun
    obtain ⟨hfs, hi, hrr, hevs⟩ := hrun
    subst hevs
    exact ⟨[], by simp, hnostage, by simp, by simp, by simp⟩

/-- The variant prologue announces each variant flusher that its dirty
flag requests. -/
lemma flushVariants_mem (i : Inode) :
    (i.i_xattrdirty = true → FEv.xattrFlush ∈ (flushVariants i).2) ∧
    (i.i_bmapdirty = true → FEv.bmapFlush ∈ (flushVariants i).2) ∧
    (i.i_dirdirty = true → FEv.dirFlush ∈ (flushVariants i).2) := by
  by_cases hx : i.i_xattrdirty <;> by_cases hb : i.i_bmapdirty <;>
    by_cases hd : i.i_dirdirty <;>
    simp [flushVariants, lc_xattrFlush, lc_bmapFlush, lc_dirFlush,
      hx, hb, hd]

/-- C7: in the trace of `lc_flushInode`, every dirty variant's flusher
is invoked, and every variant-flusher event precedes every scheduling
of the inode's own record write. -/
theorem C7_variant_flush_precedes_record_write (fs : FSt) (i : Inode)
    (fs2 : FSt) (i1 : Inode) (r : Nat) (evs : List FEv)
    (hrun : lc_flushInode fs i = some (fs2, i1, r, evs)) :
    (i.i_xattrdirty = true → FEv.xattrFlush ∈ evs) ∧
    (i.i_bmapdirty = true → FEv.bmapFlush ∈ evs) ∧
    (i.i_dirdirty = true → FEv.dirFlush ∈ evs) ∧
    ∀ j k p, evs.get? j = some (FEv.stageInode p) →
      (evs.get? k = some FEv.xattrFlush ∨
       evs.get? k = some FEv.bmapFlush ∨
       evs.get? k = some FEv.dirFlush) → k < j := by
  obtain ⟨tail, hdec, hnostage, hnx, hnb, hnd⟩ :=
    flushInode_trace_decomp fs i fs2 i1 r evs hrun
  obtain ⟨m1, m2, m3⟩ := flushVariants_mem i
  subst hdec
  refine ⟨?_, ?_, ?_, append_stage_order _ _ hnostage hnx hnb hnd⟩
  · intro h
    exact List.mem_append_left _ (m1 h)
  · intro h
    exact List.mem_append_left _ (m2 h)
  · intro h
    exact List.mem_append_left _ (m3 h)

/-- An inode with its record and all three variant payloads dirty. -/
def allDirtyInode : Inode :=
  { emptyInode with
    i_dirty := true, i_xattrdirty := true,
    i_bmapdirty := true, i_dirdirty := true, i_block := 500 }

/-- The concrete `lc_flushInode` run on the all-dirty inode. -/
def allDirtyRun : FSt × Inode × Nat × List FEv :=
  (lc_flushInode emptyFlushFs allDirtyInode).getD
    (emptyFlushFs, emptyInode, 0, [])

/-- C7 witness: the ordering theorem applied to the concrete all-dirty
flush. -/
theorem C7_variant_flush_precedes_record_write_witness :
    (allDirtyInode.i_xattrdirty = true → FEv.xattrFlush ∈ allDirtyRun.2.2.2) ∧
    (allDirtyInode.i_bmapdirty = true → FEv.bmapFlush ∈ allDirtyRun.2.2.2) ∧
    (allDirtyInode.i_dirdirty = true → FEv.dirFlush ∈ allDirtyRun.2.2.2) ∧
    ∀ j k p, allDirtyRun.2.2.2.get? j = some (FEv.stageInode p) →
      (allDirtyRun.2.2.2.get? k = some FEv.xattrFlush ∨
       allDirtyRun.2.2.2.get? k = some FEv.bmapFlush ∨
       allDirtyRun.2.2.2.get? k = some FEv.dirFlush) → k < j :=
  C7_variant_flush_precedes_record_write emptyFlushFs allDirtyInode
    allDirtyRun.1 allDirtyRun.2.1 allDirtyRun.2.2.1 allDirtyRun.2.2.2
    (by decide)

end Flush

namespace Load

/-!
Embedding of the inode loader `lc_readInodes` of `inode.c`.

The disk is an oracle pair: `recAt` interprets a block as an
inode-block record, `childAt` interprets a block as a serialized inode
with its inline tail.  Block reads, block frees, record rewrites and the
dispatched external readers (block map, directory, xattr) are recorded
as events.  The cache insertions of `lc_addInode` are collected in a
flat list in processing order (the bucket structure is modelled with
the lookup embedding); the two fatal assertions — a root-numbered inode
that is not a directory, and a missing root at end of load — are
modelled by an `Option` result.  The `while (block != LC_INVALID_BLOCK)`
loop over the indirect chain carries explicit fuel since the embedding
cannot know the on-disk chain is acyclic. -/

/-- A child block: one serialized inode followed by its inline tail
bytes. -/
structure ChildBlk where
  cb_dinode : Dinode
  cb_tail : List Nat

/-- The disk oracle. -/
structure Disk where
  recAt : Nat → IBlockRec
  childAt : Nat → ChildBlk

/-- Loader events in program order. -/
inductive LEv where
  | readBlock (b : Nat)
  | freeMeta (b count : Nat)
  | writeBlock (b : Nat) (blks : List Nat) (next : Nat)
  | bmapRead (ino : Nat)
  | dirRead (ino : Nat)
  | xattrRead (ino : Nat)
deriving DecidableEq

/-- The loader's running state: inodes inserted into the cache in
processing order, the layer root inode, and the resident counter. -/
structure LSt where
  cache : List Inode
  fs_rootInode : Option Inode
  fs_icount : Nat
deriving DecidableEq

/-- The `memset(inode, 0, sizeof(struct inode))` image. -/
def zeroInode : Inode :=
  { emptyInode with i_block := 0, i_bmapDirBlock := 0, i_xattrBlock := 0 }

/-- The inode record built from a child block: zero fill, copy of the
serialized `dinode`, `i_block` set to the child's block, and the inline
symlink target copied out for symlinks. -/
def inodeFromChild (cb : ChildBlk) (iblock : Nat) : Inode :=
  let d := cb.cb_dinode
  let i1 :=
    { zeroInode with
      i_stat := d.di_stat, i_parent := d.di_parent,
      i_extentBlock := d.di_extentBlock, i_extentLength := d.di_extentLength,
      i_xattrBlock := d.di_xattrBlock, i_bmapDirBlock := d.di_bmapDirBlock,
      i_block := iblock }
  if S_ISLNK d.di_stat.st_mode then
    { i1 with i_target := some (cb.cb_tail.take d.di_stat.st_size) }
  else i1

/-- The per-record slot loop of `lc_readInodes` (`for i < LC_IBLOCK_MAX`
with break on a zero address and skip on the invalid sentinel).  Returns
the record's slot array after tombstone reclamation, the rewrite flag,
the updated loader state and the events.  `none` is the fatal assertion
on a non-directory root inode. -/
def processSlots (disk : Disk) (fsRoot : Nat) (st : LSt) :
    List Nat → Option (List Nat × Bool × LSt × List LEv)
  | [] => some ([], false, st, [])
  | b :: rest =>
    if b = 0 then some (b :: rest, false, st, [])
    else if b = LC_INVALID_BLOCK then
      match processSlots disk fsRoot st rest with
      | none => none
      | some (rest1, fl, st1, evs) => some (b :: rest1, fl, st1, evs)
    else
      let cb := disk.childAt b
      if cb.cb_dinode.di_stat.st_mode = 0 then
        match processSlots disk fsRoot st rest with
        | none => none
        | some (rest1, fl, st1, evs) =>
          some (LC_INVALID_BLOCK :: rest1, true, st1,
            LEv.readBlock b :: LEv.freeMeta b 1 :: evs)
      else
        let i := inodeFromChild cb b
        let evd :=
          if S_ISREG i.i_stat.st_mode then [LEv.bmapRead i.i_stat.st_ino]
          else if S_ISDIR i.i_stat.st_mode then [LEv.dirRead i.i_stat.st_ino]
          else []
        let st1 := { st with cache := st.cache ++ [i],
                             fs_icount := (st.fs_icount + 1) % U64 }
        if i.i_stat.st_ino = fsRoot ∧ ¬(S_ISDIR i.i_stat.st_mode = true) then
          none
        else
          let st2 :=
            if i.i_stat.st_ino = fsRoot then
              { st1 with fs_rootInode := some i }
            else st1
          match processSlots disk fsRoot st2 rest with
          | none => none
          | some (rest1, fl, st3, evs) =>
            some (b :: rest1, fl, st3,
              LEv.readBlock b :: (evd ++ [LEv.xattrRead i.i_stat.st_ino])
                ++ evs)

/-- The indirect-chain loop of `lc_readInodes`: read each inode-block
record, process its slots, rewrite the record in place when a tombstone
was reclaimed, then advance to `next`; stop at the invalid sentinel. -/
def readLoop (disk : Disk) (fsRoot : Nat) :
    Nat → LSt → Nat → Option (LSt × List LEv)
  | block, st, fuel =>
    if block = LC_INVALID_BLOCK then some (st, [])
    else
      match fuel with
      | 0 => none
      | fuel + 1 =>
        let rec0 := disk.recAt block
        match processSlots disk fsRoot st rec0.ib_blks with
        | none => none
        | some (blks1, fl, st1, evs) =>
          match readLoop disk fsRoot rec0.ib_next st1 fuel with
          | none => none
          | some (st2, evs2) =>
            some (st2, (LEv.readBlock block :: evs) ++
              (if fl then [LEv.writeBlock block blks1 rec0.ib_next] else [])
                ++ evs2)

/-- `lc_readInodes`: walk the indirect chain from the superblock's
inode-block pointer; it is fatal for the layer to have no root inode at
end of load. -/
def lc_readInodes (disk : Disk) (fsRoot : Nat) (startBlock : Nat)
    (fuel : Nat) : Option (LSt × List LEv) :=
  match readLoop disk fsRoot startBlock
      { cache := [], fs_rootInode := none, fs_icount := 0 } fuel with
  | none => none
  | some (st, evs) =>
    if st.fs_rootInode = none then none
    else some (st, evs)

/-- C6: a child slot whose serialized mode is 0 is freed through the
block allocator, its slot is replaced by the invalid sentinel and the
record is marked for rewrite; a record with reclaimed slots is rewritten
in place before the loader advances to the next record; the chain loop
terminates exactly when the next pointer is the invalid sentinel; and a
layer without a root inode at end of load is a fatal assertion. -/
theorem C6_loader_tombstones_and_termination :
    (∀ (disk : Disk) (root : Nat) (st : LSt) (b : Nat) (blks : List Nat)
       (rest1 : List Nat) (fl : Bool) (st1 : LSt) (evs : List LEv),
      b ≠ 0 → b ≠ LC_INVALID_BLOCK →
      (disk.childAt b).cb_dinode.di_stat.st_mode = 0 →
      processSlots disk root st blks = some (rest1, fl, st1, evs) →
      processSlots disk root st (b :: blks) =
        some (LC_INVALID_BLOCK :: rest1, true, st1,
          LEv.readBlock b :: LEv.freeMeta b 1 :: evs)) ∧
    (∀ (disk : Disk) (root block : Nat) (st : LSt) (fuel : Nat)
       (blks1 : List Nat) (st1 : LSt) (evs : List LEv) (st2 : LSt)
       (evs2 : List LEv),
      block ≠ LC_INVALID_BLOCK →
      processSlots disk root st (disk.recAt block).ib_blks =
        some (blks1, true, st1, evs) →
      readLoop disk root (disk.recAt block).ib_next st1 fuel =
        some (st2, evs2) →
      readLoop disk root block st (fuel + 1) =
        some (st2, (LEv.readBlock block :: evs) ++
          LEv.writeBlock block blks1 (disk.recAt block).ib_next :: evs2)) ∧
    (∀ (disk : Disk) (root : Nat) (st : LSt) (fuel : Nat),
      readLoop disk root LC_INVALID_BLOCK st fuel = some (st, [])) ∧
    (∀ (disk : Disk) (root start fuel : Nat) (st : LSt) (evs : List LEv),
      readLoop disk root start
        { cache := [], fs_rootInode := none, fs_icount := 0 } fuel
        = some (st, evs) →
      st.fs_rootInode = none →
      lc_readInodes disk root start fuel = none) := by
  refine ⟨?_, ?_, ?_, ?_⟩
  · intro disk root st b blks rest1 fl st1 evs hb0 hbi hmode hp
    simp [processSlots, hb0, hbi, hmode, hp]
  · intro disk root block st fuel blks1 st1 evs st2 evs2 hni hp hloop
    rw [readLoop.eq_def]
    simp only [hni, if_false, hp, hloop]
    simp [hni]
  · intro disk root st fuel
    rw [readLoop.eq_def]
    simp
  · intro disk root start fuel st evs hrun hnone
    rw [lc_readInodes, hrun]
    simp [hnone]

/-- A serialized inode with the given number and mode. -/
def mkDin (ino mode : Nat) : Dinode :=
  { di_stat := { zeroStat with st_ino := ino, st_mode := mode },
    di_parent := 2, di_extentBlock := 0, di_extentLength := 0,
    di_xattrBlock := 0, di_bmapDirBlock := 0 }

/-- One inode-block record at block 100 with a live root directory at
child block 200 and a tombstone at child block 300. -/
def loadDisk : Disk :=
  { recAt := fun b =>
      if b = 100 then { ib_blks := [200, 300, 0], ib_next := LC_INVALID_BLOCK }
      else { ib_blks := [], ib_next := LC_INVALID_BLOCK },
    childAt := fun b =>
      if b = 200 then { cb_dinode := mkDin 2 0x41ED, cb_tail := [] }
      else { cb_dinode := mkDin 0 0, cb_tail := [] } }

/-- The same chain but with a non-root regular file instead of the
root directory: the load must end without a root inode. -/
def loadDiskNoRoot : Disk :=
  { loadDisk with
    childAt := fun b =>
      if b = 200 then { cb_dinode := mkDin 42 0x81A4, cb_tail := [] }
      else { cb_dinode := mkDin 0 0, cb_tail := [] } }

/-- The loader's initial state. -/
def loadSt0 : LSt := { cache := [], fs_rootInode := none, fs_icount := 0 }

/-- The concrete slot processing of record 100. -/
def loadSlotsRun : List Nat × Bool × LSt × List LEv :=
  (processSlots loadDisk 2 loadSt0 [200, 300, 0]).getD ([], false, loadSt0, [])

/-- The concrete rootless chain walk. -/
def loadNoRootRun : LSt × List LEv :=
  (readLoop loadDiskNoRoot 2 100 loadSt0 2).getD (loadSt0, [])

/-- C6 witness: the four parts of the loader theorem at the concrete
disk — the tombstone at block 300 is freed and its slot invalidated,
record 100 is rewritten before the walk advances past it, the walk
stops at the invalid sentinel, and the rootless disk aborts the load. -/
theorem C6_loader_tombstones_and_termination_witness :
    processSlots loadDisk 2 loadSt0 (300 :: [0]) =
      some (LC_INVALID_BLOCK :: [0], true, loadSt0,
        LEv.readBlock 300 :: LEv.freeMeta 300 1 :: []) ∧
    readLoop loadDisk 2 100 loadSt0 (0 + 1) =
      some (loadSlotsRun.2.2.1, (LEv.readBlock 100 :: loadSlotsRun.2.2.2) ++
        LEv.writeBlock 100 loadSlotsRun.1 (loadDisk.recAt 100).ib_next
          :: []) ∧
    readLoop loadDisk 2 LC_INVALID_BLOCK loadSt0 5 = some (loadSt0, []) ∧
    lc_readInodes loadDiskNoRoot 2 100 2 = none :=
  ⟨C6_loader_tombstones_and_termination.1 loadDisk 2 loadSt0 300 [0]
      [0] false loadSt0 [] (by decide) (by decide) (by decide) (by decide),
   C6_loader_tombstones_and_termination.2.1 loadDisk 2 100 loadSt0 0
      loadSlotsRun.1 loadSlotsRun.2.2.1 loadSlotsRun.2.2.2
      loadSlotsRun.2.2.1 [] (by decide) (by decide) (by decide),
   C6_loader_tombstones_and_termination.2.2.1 loadDisk 2 loadSt0 5,
   C6_loader_tombstones_and_termination.2.2.2 loadDiskNoRoot 2 100 2
      loadNoRootRun.1 loadNoRootRun.2 (by decide) (by decide)⟩

end Load

namespace Destroy

/-!
Embedding of layer teardown: `lc_freeInode` and `lc_destroyInodes` of
`inode.c`.

The cache is the bucket array of resident inodes (by value — teardown
holds the layer exclusively).  The external frees (xattrs, extent lists,
lock destruction, record free) have no observable effect on the
quantities the claims speak about and are not recorded; the fatal
assertions of `lc_freeInode` on leftover pages, block maps and counters
are modelled by an `Option` result. -/

/-- Modelled from the spec: `lc_truncPages(inode, 0, false)` (external
page module) releases every page and the block map of a regular file. -/
def lc_truncPages (i : Inode) : Inode :=
  { i with i_page := none, i_pcount := 0, i_dpcount := 0,
           i_bmap := none, i_bcount := 0 }

/-- Modelled from the spec: `lc_dirFree` (external directory module)
frees the directory entries. -/
def lc_dirFree (i : Inode) : Inode := { i with i_dirent := none }

/-- `lc_freeInode`: release the variant payload (pages for regular
files, entries for directories, the target for unshared symlinks), then
assert that no page, block map or per-inode counter is left, and free
the record.  `none` models a failed assertion. -/
def lc_freeInode (i : Inode) : Option Unit :=
  let i1 :=
    if S_ISREG i.i_stat.st_mode then lc_truncPages i
    else if S_ISDIR i.i_stat.st_mode then lc_dirFree i
    else if S_ISLNK i.i_stat.st_mode then { i with i_target := none }
    else i
  if i1.i_page = none ∧ i1.i_bmap = none ∧ i1.i_bcount = 0 ∧
      i1.i_pcount = 0 ∧ i1.i_dpcount = 0 then some () else none

/-- The inner `while` of `lc_destroyInodes` over one bucket: detach and
free every inode, counting all freed inodes and the non-removed ones. -/
def destroyBucket : List Inode → Option (Nat × Nat)
  | [] => some (0, 0)
  | i :: rest =>
    match lc_freeInode i with
    | none => none
    | some _ =>
      match destroyBucket rest with
      | none => none
      | some (ic, rc) =>
        some (ic + 1, rc + (if i.i_removed then 0 else 1))

/-- The outer loop of `lc_destroyInodes` over all buckets. -/
def destroyBuckets : List (List Inode) → Option (Nat × Nat)
  | [] => some (0, 0)
  | bkt :: rest =>
    match destroyBucket bkt with
    | none => none
    | some (ic, rc) =>
      match destroyBuckets rest with
      | none => none
      | some (ic2, rc2) => some (ic + ic2, rc + rc2)

/-- `lc_destroyInodes`: drain every bucket, then subtract the count of
non-removed inodes from the superblock inode count when `remove` is set
and the total count from the layer's resident counter (64-bit wrapping
subtractions, both skipped when nothing was freed).  Returns the emptied
bucket array and the two new counter values. -/
def lc_destroyInodes (icache : List (List Inode)) (remove : Bool)
    (sb_inodes fs_icount : Nat) :
    Option (List (List Inode) × Nat × Nat) :=
  match destroyBuckets icache with
  | none => none
  | some (icount, rcount) =>
    let sb1 :=
      if remove ∧ icount ≠ 0 then
        (sb_inodes + (U64 - rcount % U64)) % U64
      else sb_inodes
    let ic1 :=
      if icount ≠ 0 then (fs_icount + (U64 - icount % U64)) % U64
      else fs_icount
    some (icache.map (fun _ => []), sb1, ic1)

/-- Draining one bucket counts its length and its non-removed inodes. -/
lemma destroyBucket_counts (bkt : List Inode)
    (hfree : ∀ i ∈ bkt, (lc_freeInode i).isSome = true) :
    destroyBucket bkt =
      some (bkt.length, bkt.countP (fun i => !i.i_removed)) := by
  induction bkt with
  | nil => rfl
  | cons i rest ih =>
    have hi := hfree i (List.mem_cons_self i rest)
    have hrest := ih fun x hx => hfree x (List.mem_cons_of_mem i hx)
    rcases hne : lc_freeInode i with _ | u
    · rw [hne] at hi
      simp at hi
    · simp only [destroyBucket, hne, hrest, List.countP_cons,
        List.length_cons]
      by_cases hr : i.i_removed <;> simp [hr]

/-- Draining all buckets counts the totals over the flattened cache. -/
lemma destroyBuckets_counts (icache : List (List Inode))
    (hfree : ∀ bkt ∈ icache, ∀ i ∈ bkt, (lc_freeInode i).isSome = true) :
    destroyBuckets icache =
      some (icache.join.length,
        icache.join.countP (fun i => !i.i_removed)) := by
  induction icache with
  | nil => rfl
  | cons bkt rest ih =>
    have hb := destroyBucket_counts bkt
      (hfree bkt (List.mem_cons_self bkt rest))
    have hrest := ih fun b hb2 => hfree b (List.mem_cons_of_mem bkt hb2)
    simp [destroyBuckets, hb, hrest, List.join]

/-- C8: after `lc_destroyInodes` every bucket of the cache is empty,
the superblock inode count drops by exactly the number of resident
non-removed inodes when `remove` is set (and is untouched otherwise),
and the layer's resident counter drops by the total number of freed
inodes — the in-range subtractions shown both in 64-bit wrap form and
as plain subtraction. -/
theorem C8_destroy_empties_cache_and_counters
    (icache : List (List Inode)) (remove : Bool) (sb ic : Nat)
    (hfree : ∀ bkt ∈ icache, ∀ i ∈ bkt, (lc_freeInode i).isSome = true) :
    ∃ cache1 sb1 ic1,
      lc_destroyInodes icache remove sb ic = some (cache1, sb1, ic1) ∧
      (∀ bkt ∈ cache1, bkt = []) ∧
      cache1.length = icache.length ∧
      sb1 = (if remove ∧ icache.join.length ≠ 0 then
        (sb + (U64 - (icache.join.countP (fun i => !i.i_removed)) % U64))
          % U64
        else sb) ∧
      ic1 = (if icache.join.length ≠ 0 then
        (ic + (U64 - icache.join.length % U64)) % U64 else ic) ∧
      (remove = true → sb < U64 →
        icache.join.countP (fun i => !i.i_removed) ≤ sb →
        sb1 = sb - icache.join.countP (fun i => !i.i_removed)) ∧
      (remove = false → sb1 = sb) ∧
      (ic < U64 → icache.join.length ≤ ic →
        ic1 = ic - icache.join.length) := by
  have hd := destroyBuckets_counts icache hfree
  have hU64 : U64 = 18446744073709551616 := by norm_num [U64]
  refine ⟨icache.map (fun _ => []), _, _, ?_, ?_, ?_, rfl, rfl, ?_, ?_, ?_⟩
  · rw [lc_destroyInodes, hd]
  · intro bkt hmem
    rcases List.mem_map.mp hmem with ⟨a, ha, hb⟩
    exact hb.symm
  · simp
  · intro hrm hlt hle
    subst hrm
    by_cases hz : icache.join.length = 0
    · have hr0 : icache.join.countP (fun i => !i.i_removed) = 0 := by
        have := List.countP_le_length (l := icache.join)
          (p := fun i => !i.i_removed)
        omega
      simp [hz, hr0]
    · have hrlt : icache.join.countP (fun i => !i.i_removed) < U64 := by
        omega
      have hmod : icache.join.countP (fun i => !i.i_removed) % U64
          = icache.join.countP (fun i => !i.i_removed) :=
        Nat.mod_eq_of_lt hrlt
      simp only [hz, ne_eq, not_false_eq_true, and_true, true_and, if_true,
        hmod]
      rw [hU64] at *
      omega
  · intro hrm
    subst hrm
    simp
  · intro hlt hle
    by_cases hz : icache.join.length = 0
    · simp [hz]
    · have hmod : icache.join.length % U64 = icache.join.length :=
        Nat.mod_eq_of_lt (by omega)
      simp only [hz, ne_eq, not_false_eq_true, if_true, hmod]
      rw [hU64] at *
      omega

/-- A three-bucket cache holding one live inode and one removed inode. -/
def destroyCache : List (List Inode) :=
  [[emptyInode], [], [{ emptyInode with i_removed := true }]]

/-- C8 witness: destroying the concrete cache with `remove = true`
empties every bucket, drops the superblock count by the one non-removed
inode (10 to 9) and the resident counter by both freed inodes
(7 to 5). -/
theorem C8_destroy_empties_cache_and_counters_witness :
    ∃ cache1 sb1 ic1,
      lc_destroyInodes destroyCache true 10 7 = some (cache1, sb1, ic1) ∧
      (∀ bkt ∈ cache1, bkt = []) ∧
      cache1.length = destroyCache.length ∧
      sb1 = (if (true : Bool) ∧ destroyCache.join.length ≠ 0 then
        (10 + (U64 - (destroyCache.join.countP (fun i => !i.i_removed))
          % U64)) % U64
        else 10) ∧
      ic1 = (if destroyCache.join.length ≠ 0 then
        (7 + (U64 - destroyCache.join.length % U64)) % U64 else 7) ∧
      ((true : Bool) = true → 10 < U64 →
        destroyCache.join.countP (fun i => !i.i_removed) ≤ 10 →
        sb1 = 10 - destroyCache.join.countP (fun i => !i.i_removed)) ∧
      ((true : Bool) = false → sb1 = 10) ∧
      (7 < U64 → destroyCache.join.length ≤ 7 →
        ic1 = 7 - destroyCache.join.length) :=
  C8_destroy_empties_cache_and_counters destroyCache true 10 7 (by decide)

end Destroy

end PxGraph
